import Mathlib

/-!
Verification of the save-game reconciliation script `steamsaves_sync.py`.

The script reconciles two directories of save files (the "steam" side and
the "dropbox" side).  Per game entry it lists both directories, keys each
file by a pluggable identity callback, and copies the newer replica of each
divergent pair over the older one.  This file gives a shallow embedding of
the script and proves or refutes the frozen specification claims about it.

Modelling choices:
* A directory is an association list from base name to file data (bytes and
  modification time); Python `listdir` order is the list order, and a file
  written into a directory overwrites in place when the name exists and is
  appended at the end otherwise.
* Timestamps and modification times are rationals (the script manipulates
  them only through `abs`, `max`, comparison and multiplication by the
  literal tolerance `1e-09`, all exact here).
* The identity callback (`saveNameCB`) of a game entry is a function of the
  base name and the file bytes, and the time callback (`saveTimeCB`) a
  function of the base name and file data, mirroring the two concrete
  strategies of the script (`defaultSaveNameCB` / `POESaveName` read the
  base name and the archive bytes; `defaultGetSaveTime` reads the mtime and
  `POESaveTime` the archive bytes).
* `filecmp.cmp` is called by the script with its default `shallow=True`:
  it reports two regular files equal when their stat signatures
  (size, mtime) coincide, and otherwise compares sizes and then byte
  content.  `savesAreSame` below is that semantics.
* The Pillars-of-Eternity extraction callbacks can raise Python exceptions
  (`zipfile.BadZipFile`, `KeyError`, XML parse errors, `IndexError` on
  `root[0]`, `ValueError` from `strptime`); they are embedded as
  `Except PyError` values over an archive model, with the `strptime`
  primitive passed in as a function returning `none` exactly on the strings
  it would raise for.
* `notify` calls are recorded as events; `exit(1)` is recorded by the
  `aborted` flag, after which every later step of the run is a no-op.
-/

namespace SteamSync

/-- Bytes of a file, as a list of byte values. -/
abbrev Bytes := List Nat

/-- A concrete file: its content bytes and its stat modification time. -/
structure FileData where
  bytes : Bytes
  mtime : ℚ
deriving DecidableEq

/-- A directory: association list from base name to file data, in listing order. -/
abbrev Dir := List (String × FileData)

/-- Which of the two directories of a game entry a file lives in. -/
inductive Side where
  | steam
  | dropbox
deriving DecidableEq

/-- A game entry (class `GameEntry` of the script): display name, the two
directory paths, the optional save-suffix filter and the two pluggable
callbacks. -/
structure GameEntry where
  name : String
  steamPath : String
  dropboxPath : String
  saveSuffix : Option String
  saveNameCB : String → Bytes → String
  saveTimeCB : String → FileData → ℚ

/-- `defaultSaveNameCB`: the identity of a file is its base name. -/
def defaultSaveNameCB (n : String) (_b : Bytes) : String := n

/-- `defaultGetSaveTime`: the time of a file is its stat mtime (`getmtime`). -/
def defaultGetSaveTime (_n : String) (d : FileData) : ℚ := d.mtime

/-- The directory path of a side within a game entry. -/
def GameEntry.dirPath (g : GameEntry) : Side → String
  | Side.steam => g.steamPath
  | Side.dropbox => g.dropboxPath

/-- `os.path.join` for one path component. -/
def joinPath (dir n : String) : String := dir ++ ("/") ++ n

/-- The suffix filter of `getFileList`: Python keeps a file when `saveSuffix`
is falsy (absent or empty) or the file path ends with the suffix. -/
def pySuffixKeep (suffix : Option String) (path : String) : Bool :=
  match suffix with
  | none => true
  | some s => if s.data = [] then true else s.data.isSuffixOf path.data

/-- The entries of a directory retained by the suffix filter of `getFileList`. -/
def listingEntries (g : GameEntry) (side : Side) (d : Dir) : List (String × FileData) :=
  d.filter (fun p => pySuffixKeep g.saveSuffix (joinPath (g.dirPath side) p.1))

/-- `getFileList`: the base names of the directory entries kept by the filter. -/
def getFileList (g : GameEntry) (side : Side) (d : Dir) : List String :=
  (listingEntries g side d).map Prod.fst

/-- Read the current data of the file with a given base name. -/
def dirLookup (d : Dir) (n : String) : Option FileData :=
  match d.find? (fun p => p.1 == n) with
  | some p => some p.2
  | none => none

/-- Write file data under a base name: overwrite in place when the name
exists, append at the end otherwise (the effect of `shutil.copy`). -/
def dirWrite (d : Dir) (n : String) (data : FileData) : Dir :=
  match d with
  | [] => [(n, data)]
  | p :: rest => if p.1 == n then (n, data) :: rest else p :: dirWrite rest n data

/-- The identity the game entry assigns to a directory entry. -/
def entryId (g : GameEntry) (p : String × FileData) : String :=
  g.saveNameCB p.1 p.2.bytes

/-- `findFileFromBasename`: linear scan of a (possibly stale) name list,
reading the current data of each file, returning the first file whose
resolved identity equals the requested key. -/
def findFileFromBasename (g : GameEntry) (names : List String) (d : Dir)
    (key : String) : Option (String × FileData) :=
  match names with
  | [] => none
  | n :: rest =>
    match dirLookup d n with
    | some data =>
      if g.saveNameCB n data.bytes == key then some (n, data)
      else findFileFromBasename g rest d key
    | none => findFileFromBasename g rest d key

/-- The relative tolerance `rel_tol=1e-09` of `isclose`. -/
def relTol : ℚ := 1 / 1000000000

/-- `isclose(a, b)`: `abs(a-b) <= max(rel_tol * max(abs(a), abs(b)), abs_tol)`
with `abs_tol = 0`. -/
def isclose (a b : ℚ) : Bool :=
  if |a - b| ≤ max (relTol * max |a| |b|) 0 then true else false

/-- The comparison core of `compareFileTimes` on the two extracted times:
`none` models the `exit(1)` on a zero time, `some 0` "same time",
`some 1` "first newer", `some (-1)` "second newer". -/
def compareTimes (t1 t2 : ℚ) : Option Int :=
  if t1 == 0 || t2 == 0 then none
  else if isclose t1 t2 then some 0
  else if t1 > t2 then some 1
  else some (-1)

/-- `compareFileTimes`: extract the two save times with the entry's time
callback and compare them. -/
def compareFileTimes (g : GameEntry) (n1 : String) (f1 : FileData)
    (n2 : String) (f2 : FileData) : Option Int :=
  compareTimes (g.saveTimeCB n1 f1) (g.saveTimeCB n2 f2)

/-- `savesAreSame`, i.e. `filecmp.cmp(s1, s2)` with its default
`shallow=True` on two regular files: equal stat signatures (size, mtime)
short-circuit to `true`; otherwise the sizes and then the bytes are
compared.  Note that equal bytes imply equal sizes, so the size test is
absorbed by the byte test. -/
def savesAreSame (s1 s2 : FileData) : Bool :=
  (s1.bytes.length == s2.bytes.length && s1.mtime == s2.mtime) || s1.bytes == s2.bytes

/-- Priority argument of `notify`. -/
inductive Priority where
  | normal
  | critical
deriving DecidableEq

/-- One `notify(title, message, priority)` call. -/
structure Event where
  title : String
  message : String
  priority : Priority
deriving DecidableEq

/-- The event emitted when the identity callback returns the empty string. -/
def extractFailEvent (path : String) : Event :=
  { title := ("Failed to extract name from save file ") ++ path
    message := ""
    priority := Priority.normal }

/-- The message of the unresolvable-conflict notification.  The script
builds it from the literal
`"Save file {} exists in both steam and dropbox with different contents but same modification timestamp"`
without ever calling `.format` on it, so the placeholder braces remain in
the message verbatim and the identity is not interpolated. -/
def conflictMessage : String :=
  "Save file \x7b\x7d exists in both steam and dropbox with " ++
    "different contents but same modification timestamp"

/-- The critical event emitted on a same-time different-content pair. -/
def conflictEvent (g : GameEntry) : Event :=
  { title := ("Failed to sync save for ") ++ g.name
    message := conflictMessage
    priority := Priority.critical }

/-- The critical event of the "should never happen" comparator branch. -/
def internalErrorEvent : Event :=
  { title := "Internal script error", message := "", priority := Priority.critical }

/-- One performed file copy, as recorded for the claims. -/
structure CopyAction where
  fromSide : Side
  fromName : String
  toSide : Side
  toName : String
deriving DecidableEq

/-- The running state of `syncEntry`: the two directories, a clock supplying
fresh mtimes for copies, the copies and notifications performed so far, and
whether the process has exited (`exit(1)`). -/
structure SyncState where
  steam : Dir
  dbox : Dir
  clock : ℚ
  copies : List CopyAction
  events : List Event
  aborted : Bool
deriving DecidableEq

/-- The directory of a side in the current state. -/
def SyncState.getDir (st : SyncState) : Side → Dir
  | Side.steam => st.steam
  | Side.dropbox => st.dbox

/-- Replace the directory of a side. -/
def SyncState.setDir (st : SyncState) (s : Side) (d : Dir) : SyncState :=
  match s with
  | Side.steam => { st with steam := d }
  | Side.dropbox => { st with dbox := d }

/-- The event emitted by `syncSave`: the direction word is chosen by
`fromFile.startswith(gentry.dropboxPath)` on the source path. -/
def syncEventFor (g : GameEntry) (fromSide : Side) (fromName : String)
    (b : Bytes) : Event :=
  { title := ("Synced save for ") ++ g.name
    message := ("Synced save \"") ++ g.saveNameCB fromName b ++ ("\" ") ++
      (if (joinPath (g.dirPath fromSide) fromName).startsWith g.dropboxPath
       then ("from") else ("to")) ++ (" Dropbox")
    priority := Priority.normal }

/-- `syncSave(fromFile, toFile)`: `shutil.copy` of the source bytes onto the
destination name (fresh mtime from the clock), followed by the notification. -/
def doSyncSave (g : GameEntry) (st : SyncState) (fromSide : Side)
    (fromName : String) (toSide : Side) (toName : String) : SyncState :=
  match dirLookup (st.getDir fromSide) fromName with
  | none => st
  | some src =>
    let dest : FileData := { bytes := src.bytes, mtime := st.clock }
    let st' := st.setDir toSide (dirWrite (st.getDir toSide) toName dest)
    { st' with
        clock := st.clock + 1
        copies := st.copies ++ [⟨fromSide, fromName, toSide, toName⟩]
        events := st.events ++ [syncEventFor g fromSide fromName src.bytes] }

/-- The body of the first loop of `syncEntry`, processing one steam file
`n` against the stale dropbox name list `dboxNames` and the live state. -/
def pass1Step (g : GameEntry) (dboxNames : List String) (st : SyncState)
    (n : String) : SyncState :=
  if st.aborted then st else
  match dirLookup st.steam n with
  | none => st
  | some fdata =>
    let baseName := g.saveNameCB n fdata.bytes
    if baseName == "" then
      { st with events := st.events ++ [extractFailEvent (joinPath g.steamPath n)] }
    else if baseName == ("__IGNORE__") then st
    else
      match findFileFromBasename g dboxNames st.dbox baseName with
      | some (dn, ddata) =>
        if savesAreSame ddata fdata then st
        else
          match compareFileTimes g n fdata dn ddata with
          | none => { st with aborted := true }
          | some r =>
            if r == 0 then { st with events := st.events ++ [conflictEvent g] }
            else if r == 1 then doSyncSave g st Side.steam n Side.dropbox dn
            else if r == (-1) then doSyncSave g st Side.dropbox dn Side.steam n
            else { st with events := st.events ++ [internalErrorEvent], aborted := true }
      | none => doSyncSave g st Side.steam n Side.dropbox n

/-- The body of the second loop of `syncEntry`, processing one dropbox file
`n` against the stale steam name list `steamNames` and the live state. -/
def pass2Step (g : GameEntry) (steamNames : List String) (st : SyncState)
    (n : String) : SyncState :=
  if st.aborted then st else
  match dirLookup st.dbox n with
  | none => st
  | some fdata =>
    let baseName := g.saveNameCB n fdata.bytes
    if baseName == "" then
      { st with events := st.events ++ [extractFailEvent (joinPath g.dropboxPath n)] }
    else if baseName == ("__IGNORE__") then st
    else
      match findFileFromBasename g steamNames st.steam baseName with
      | some _ => st
      | none => doSyncSave g st Side.dropbox n Side.steam n

/-- The first loop of `syncEntry` over the steam listing. -/
def runPass1 (g : GameEntry) (dboxNames : List String) (names : List String)
    (st : SyncState) : SyncState :=
  names.foldl (pass1Step g dboxNames) st

/-- The second loop of `syncEntry` over the dropbox listing. -/
def runPass2 (g : GameEntry) (steamNames : List String) (names : List String)
    (st : SyncState) : SyncState :=
  names.foldl (pass2Step g steamNames) st

/-- `syncEntry`: list both directories, run the steam-to-dropbox pass,
re-list both directories from current disk state, run the
dropbox-to-steam pass. -/
def syncEntry (g : GameEntry) (steam0 dbox0 : Dir) (clock : ℚ) : SyncState :=
  let st0 : SyncState := ⟨steam0, dbox0, clock, [], [], false⟩
  let steamNames := getFileList g Side.steam steam0
  let dboxNames := getFileList g Side.dropbox dbox0
  let st1 := runPass1 g dboxNames steamNames st0
  let steamNames2 := getFileList g Side.steam st1.steam
  let dboxNames2 := getFileList g Side.dropbox st1.dbox
  runPass2 g steamNames2 dboxNames2 st1

/-! ## The Pillars-of-Eternity extraction callbacks

`POESaveName` and `POESaveTime` open the save file as a zip archive and
read `saveinfo.xml` inside it.  The archive content is modelled by the
stages at which the Python library calls raise, and the `Simple` elements
of `root[0]` by their `(name, value)` attribute pairs. -/

/-- The Python exceptions the two callbacks can raise. -/
inductive PyError where
  | badZipFile
  | keyError
  | parseError
  | indexError
  | valueError
deriving DecidableEq

/-- A save file's content as seen by the archive-reading callbacks. -/
inductive POEArchive where
  /-- not a zip archive: `zipfile.ZipFile` raises `BadZipFile` -/
  | notZip
  /-- no `saveinfo.xml` member: `archive.read` raises `KeyError` -/
  | missingSaveinfo
  /-- `saveinfo.xml` is not well-formed XML: `ET.fromstring` raises -/
  | badXml
  /-- the XML root has no child: `root[0]` raises `IndexError` -/
  | emptyRoot
  /-- the `(name, value)` attribute pairs of the `Simple` elements of `root[0]` -/
  | simples (entries : List (String × String))
deriving DecidableEq

/-- Reading the `Simple` elements out of the archive, with the raise points
of `ZipFile` / `read` / `fromstring` / `root[0]`. -/
def readSaveinfo (a : POEArchive) : Except PyError (List (String × String)) :=
  match a with
  | POEArchive.notZip => Except.error PyError.badZipFile
  | POEArchive.missingSaveinfo => Except.error PyError.keyError
  | POEArchive.badXml => Except.error PyError.parseError
  | POEArchive.emptyRoot => Except.error PyError.indexError
  | POEArchive.simples es => Except.ok es

/-- The `for p in ...: if p.get('name') == key: ...; break` scan: value of
the first `Simple` element with the requested `name` attribute. -/
def findSimple (entries : List (String × String)) (key : String) : Option String :=
  match entries with
  | [] => none
  | e :: rest => if e.1 == key then some e.2 else findSimple rest key

/-- The space character. -/
def spaceChar : Char := Char.ofNat 32

/-- `name.rpartition(" ")` restricted to what `POESaveName` consumes:
`none` when the name has no space (the malformed case, in which Python
returns `("", "", name)`), otherwise the parts before and after the last
space. -/
def rpartitionSpace (l : List Char) : Option (List Char × List Char) :=
  match l with
  | [] => none
  | c :: rest =>
    match rpartitionSpace rest with
    | some (b, a) => some (c :: b, a)
    | none => if c = spaceChar then some ([], rest) else none

/-- `POESaveName`: empty string on a name without internal whitespace,
`"__IGNORE__"` when the trailing token starts with `autosave_`, and
otherwise the `UserSaveName` attribute read out of the archive (empty
string when absent).  The archive reads can raise. -/
def POESaveName (name : String) (content : POEArchive) : Except PyError String :=
  match rpartitionSpace name.data with
  | none => Except.ok ""
  | some (_, tail) =>
    if ("autosave_").data.isPrefixOf tail then Except.ok ("__IGNORE__")
    else
      match readSaveinfo content with
      | Except.error e => Except.error e
      | Except.ok es =>
        Except.ok (match findSimple es ("UserSaveName") with
                   | some v => v
                   | none => "")

/-- `POESaveTime`: `0` when the `RealTimestamp` attribute is absent,
otherwise `time.mktime(strptime(value, "%m/%d/%Y %H:%M:%S"))`, where the
`strptime`-and-`mktime` primitive is passed in as a function returning
`none` exactly on the strings `strptime` raises `ValueError` for.  The
archive reads can also raise. -/
def POESaveTime (strptimeMktime : String → Option ℚ) (content : POEArchive) :
    Except PyError ℚ :=
  match readSaveinfo content with
  | Except.error e => Except.error e
  | Except.ok es =>
    match findSimple es ("RealTimestamp") with
    | none => Except.ok 0
    | some v =>
      match strptimeMktime v with
      | some t => Except.ok t
      | none => Except.error PyError.valueError

/-! ## Derived notions used by the claims -/

/-- A save identity is valid when it is neither the `EMPTY` sentinel (the
empty string) nor the `IGNORE` sentinel. -/
def validId (s : String) : Bool := !(s == "" || s == ("__IGNORE__"))

/-- Whether the suffix filter keeps base name `n` in the directory of a
side (shorthand for the filter applied by `listingEntries`). -/
def keeps (g : GameEntry) (side : Side) (n : String) : Bool :=
  pySuffixKeep g.saveSuffix (joinPath (g.dirPath side) n)

/-- A matched pair on which the first pass takes no copy action: the two
files compare equal under `savesAreSame`, or their save times compare
"same" (the unresolvable-conflict branch).  `q` is the dropbox entry and
`p` the steam entry, in the argument order of the script. -/
def noCopyPair (g : GameEntry) (q p : String × FileData) : Bool :=
  savesAreSame q.2 p.2 || (compareFileTimes g p.1 p.2 q.1 q.2 == some 0)

/-- Within one directory listing, no two distinct files resolve to the same
valid identity (the DirectoryIndex invariant of the specification). -/
def UniqueValidIds (g : GameEntry) (side : Side) (d : Dir) : Prop :=
  ∀ p ∈ listingEntries g side d, ∀ q ∈ listingEntries g side d,
    validId (entryId g p) = true → entryId g p = entryId g q → p.1 = q.1

/-- A steam-listed file and a dropbox-listed file sharing a base name
resolve to the same identity (so a copy that lands on an existing name
never destroys a different logical save). -/
def CrossCoherent (g : GameEntry) (S D : Dir) : Prop :=
  ∀ p ∈ listingEntries g Side.steam S, ∀ q ∈ listingEntries g Side.dropbox D,
    p.1 = q.1 → entryId g p = entryId g q

/-- Coherence of an identity callback: when a base name hosts some valid
identity, giving it the bytes of any file carrying that identity leaves
the identity unchanged.  Both strategies of the script satisfy this: the
default callback ignores the bytes, and the archive callback reads the
identity from the bytes alone once the base name passed its checks. -/
def IdCoherent (g : GameEntry) : Prop :=
  ∀ n1 b1 n2 b2, validId (g.saveNameCB n1 b1) = true →
    g.saveNameCB n1 b1 = g.saveNameCB n2 b2 →
    g.saveNameCB n1 b2 = g.saveNameCB n1 b1

/-- The suffix filter treats the two directories alike (true in particular
for an absent filter and for any filter not containing a path separator,
such as the configured `"savegame"`). -/
def SuffixUniform (g : GameEntry) : Prop :=
  ∀ n, pySuffixKeep g.saveSuffix (joinPath (g.dirPath Side.steam) n) =
    pySuffixKeep g.saveSuffix (joinPath (g.dirPath Side.dropbox) n)

/-- The time callback never reports the error value `0`. -/
def TimesNonzero (g : GameEntry) : Prop :=
  ∀ n d, g.saveTimeCB n d ≠ 0

/-- Both directories fully reconciled: every steam-listed file with a
valid identity has a dropbox-listed holder of that identity, every such
holder forms a no-copy pair with it, and every dropbox-listed file with a
valid identity has a steam-listed holder of its identity. -/
def Synced (g : GameEntry) (S D : Dir) : Prop :=
  (∀ p ∈ listingEntries g Side.steam S, validId (entryId g p) = true →
    (∃ q ∈ listingEntries g Side.dropbox D, entryId g q = entryId g p) ∧
    (∀ q ∈ listingEntries g Side.dropbox D, entryId g q = entryId g p →
      noCopyPair g q p = true)) ∧
  (∀ q ∈ listingEntries g Side.dropbox D, validId (entryId g q) = true →
    ∃ p ∈ listingEntries g Side.steam S, entryId g p = entryId g q)

/-- The invariant maintained by the first pass of `syncEntry` relative to
the initial directories `S0`, `D0`, after the steam files in `processed`
have been handled: the run has not aborted, the steam names are unchanged
and unprocessed steam files untouched, identities on both sides are
pointwise preserved, dropbox gains only names of processed steam files,
dropbox identities stay unique, the two sides stay name-coherent, and
every processed steam file with a valid identity has exactly the dropbox
holders of its identity that form no-copy pairs with it. -/
structure Pass1Inv (g : GameEntry) (S0 D0 : Dir) (processed : List String)
    (st : SyncState) : Prop where
  inv_ab : st.aborted = false
  inv_pn : ∀ m ∈ processed, m ∈ getFileList g Side.steam S0
  inv_sn : st.steam.map Prod.fst = S0.map Prod.fst
  inv_sfuture : ∀ n, n ∉ processed → dirLookup st.steam n = dirLookup S0 n
  inv_sid : ∀ n f f0, dirLookup st.steam n = some f → dirLookup S0 n = some f0 →
    g.saveNameCB n f.bytes = g.saveNameCB n f0.bytes
  inv_dnold : ∀ n, n ∈ D0.map Prod.fst → n ∈ st.dbox.map Prod.fst
  inv_dnnew : ∀ n, n ∈ st.dbox.map Prod.fst → n ∈ D0.map Prod.fst ∨ n ∈ processed
  inv_dnodup : (st.dbox.map Prod.fst).Nodup
  inv_did : ∀ n f f0, n ∈ D0.map Prod.fst → dirLookup st.dbox n = some f →
    dirLookup D0 n = some f0 → g.saveNameCB n f.bytes = g.saveNameCB n f0.bytes
  inv_duniq : UniqueValidIds g Side.dropbox st.dbox
  inv_cross : CrossCoherent g st.steam st.dbox
  inv_good : ∀ n ∈ processed, ∀ f, dirLookup st.steam n = some f →
    keeps g Side.steam n = true → validId (g.saveNameCB n f.bytes) = true →
    (∃ q ∈ listingEntries g Side.dropbox st.dbox,
      entryId g q = g.saveNameCB n f.bytes) ∧
    (∀ q ∈ listingEntries g Side.dropbox st.dbox,
      entryId g q = g.saveNameCB n f.bytes → noCopyPair g q (n, f) = true)

/-- The invariant maintained by the second pass of `syncEntry` relative to
the directories `S1`, `D1` left by the first pass: the dropbox directory
is untouched, existing steam files are untouched, steam gains only copies
of processed dropbox files (same bytes under the same name), the sides
stay name-coherent, and every processed dropbox file with a valid identity
has a steam-listed holder of its identity. -/
structure Pass2Inv (g : GameEntry) (S1 D1 : Dir) (processed : List String)
    (st : SyncState) : Prop where
  jnv_ab : st.aborted = false
  jnv_dbox : st.dbox = D1
  jnv_sold : ∀ n, n ∈ S1.map Prod.fst → dirLookup st.steam n = dirLookup S1 n
  jnv_sup : ∀ n, n ∈ S1.map Prod.fst → n ∈ st.steam.map Prod.fst
  jnv_snames : ∀ n, n ∈ st.steam.map Prod.fst →
    n ∈ S1.map Prod.fst ∨ n ∈ processed
  jnv_snew : ∀ n f, n ∉ S1.map Prod.fst → dirLookup st.steam n = some f →
    ∃ dd, dirLookup D1 n = some dd ∧ f.bytes = dd.bytes
  jnv_snodup : (st.steam.map Prod.fst).Nodup
  jnv_cross : CrossCoherent g st.steam D1
  jnv_pmatch : ∀ n ∈ processed, ∀ f, dirLookup D1 n = some f →
    keeps g Side.dropbox n = true → validId (g.saveNameCB n f.bytes) = true →
    ∃ p ∈ listingEntries g Side.steam st.steam,
      entryId g p = g.saveNameCB n f.bytes

/-! ## The main loop

`__main__` iterates `for g in gamesList: syncEntry(g)` with no exception
handling: an `OSError` raised by `listdir` on an unreadable directory, or
an `exit(1)` inside `syncEntry`, terminates the whole process and no later
entry is processed.  An unreadable directory is modelled by `none`. -/

/-- A configured game entry together with the on-disk state of its two
directories (`none`: the path does not exist or is unreadable, so
`listdir` raises). -/
structure EntryConfig where
  g : GameEntry
  steamDir : Option Dir
  dboxDir : Option Dir

/-- Run one entry: `none` when either `listdir` raises. -/
def runEntry (e : EntryConfig) (clock : ℚ) : Option SyncState :=
  match e.steamDir, e.dboxDir with
  | some s, some d => some (syncEntry e.g s d clock)
  | _, _ => none

/-- The `for g in gamesList` loop: the per-entry results in order, and a
flag recording that the process died (uncaught exception or `exit(1)`)
before completing the list. -/
def runAll (es : List EntryConfig) (clock : ℚ) : List SyncState × Bool :=
  match es with
  | [] => ([], false)
  | e :: rest =>
    match runEntry e clock with
    | none => ([], true)
    | some st =>
      if st.aborted then ([st], true)
      else
        let r := runAll rest st.clock
        (st :: r.1, r.2)

/-! ## Concrete scenarios used to witness or refute the claims -/

/-- A game entry with the default strategies (identity = base name,
time = mtime), no suffix filter. -/
def entryDefault : GameEntry :=
  { name := "G", steamPath := "/st", dropboxPath := "/db", saveSuffix := none
    saveNameCB := defaultSaveNameCB, saveTimeCB := defaultGetSaveTime }

/-- An entry whose identity callback resolves every file to the same
logical save `"X"` and whose save time is the first byte of the file
(standing for an in-archive timestamp). -/
def entryConstId : GameEntry :=
  { name := "G", steamPath := "/st", dropboxPath := "/db", saveSuffix := none
    saveNameCB := fun _ _ => "X"
    saveTimeCB := fun _ d => match d.bytes with | t :: _ => (t : ℚ) | [] => 0 }

/-- C5 refutation: two steam files carrying the same identity, empty
dropbox directory. -/
def c5Steam : Dir := [("A", ⟨[100], 1⟩), ("B", ⟨[200], 2⟩)]

/-- The state after the first reconciliation run of the C5 scenario. -/
def c5Run1 : SyncState := syncEntry entryConstId c5Steam [] 10

/-- C1 scenario: one steam-only file and one dropbox-only file (default
identities), nothing matching. -/
def c1St : SyncState :=
  ⟨[("A", ⟨[1], 1⟩)], [("B", ⟨[2], 2⟩)], 5, [], [], false⟩

/-- C2 scenario entry: both files resolve to identity `"QQQ"`, and both
save times are the constant `50` (equal, nonzero). -/
def c2G : GameEntry :=
  { name := "G", steamPath := "/st", dropboxPath := "/db", saveSuffix := none
    saveNameCB := fun _ _ => "QQQ", saveTimeCB := fun _ _ => 50 }

/-- C2 scenario state: same identity on both sides, different contents
(different sizes), equal timestamps. -/
def c2St : SyncState :=
  ⟨[("A", ⟨[1], 3⟩)], [("B", ⟨[2, 2], 4⟩)], 5, [], [], false⟩

/-- An entry resolving every file to identity `"K"` with constant nonzero
save time. -/
def entryConstK : GameEntry :=
  { name := "G", steamPath := "/st", dropboxPath := "/db", saveSuffix := none
    saveNameCB := fun _ _ => "K", saveTimeCB := fun _ _ => 7 }

/-- C3 refutation state: matched pair with equal sizes and equal mtimes
but different byte contents. -/
def c3St : SyncState :=
  ⟨[("A", ⟨[1, 2], 5⟩)], [("B", ⟨[3, 4], 5⟩)], 9, [], [], false⟩

/-- C3 witness state: matched pair with equal byte contents. -/
def c3wSt : SyncState :=
  ⟨[("A", ⟨[1, 2], 5⟩)], [("B", ⟨[1, 2], 9⟩)], 11, [], [], false⟩

/-- C6 scenario: the steam file's save time is `0` (extraction failure),
the pair is divergent. -/
def c6G : GameEntry :=
  { name := "G", steamPath := "/st", dropboxPath := "/db", saveSuffix := none
    saveNameCB := fun _ _ => "K", saveTimeCB := fun _ d => d.mtime }

/-- C6 scenario state: matched divergent pair, steam save time `0`. -/
def c6St : SyncState :=
  ⟨[("A", ⟨[1], 0⟩)], [("B", ⟨[2, 2], 9⟩)], 5, [], [], false⟩

/-- C9 scenario: the file named `"I"` resolves to the `IGNORE` sentinel,
every other file to its base name. -/
def c9G : GameEntry :=
  { name := "G", steamPath := "/st", dropboxPath := "/db", saveSuffix := none
    saveNameCB := fun n _ => if n = "I" then ("__IGNORE__") else n
    saveTimeCB := defaultGetSaveTime }

/-- C9 scenario state: an ignored file on each side. -/
def c9St : SyncState :=
  ⟨[("I", ⟨[1], 1⟩), ("A", ⟨[3], 3⟩)], [("I", ⟨[2], 2⟩)], 5, [], [], false⟩

/-- C8 scenario: an entry whose steam directory is unreadable. -/
def c8Bad : EntryConfig := ⟨entryDefault, none, some []⟩

/-- C8 scenario: a healthy entry that, when processed, performs one copy. -/
def c8Good : EntryConfig := ⟨entryDefault, some [("A", ⟨[1], 1⟩)], some []⟩

/-- C5 witness scenario: a single steam file, empty dropbox. -/
def c5wSteam : Dir := [("A", ⟨[7], 1⟩)]

/-- An entry with constant identity `"X"` and constant nonzero time,
used to witness the amended idempotence claim. -/
def entryConstTime : GameEntry :=
  { name := "G", steamPath := "/st", dropboxPath := "/db", saveSuffix := none
    saveNameCB := fun _ _ => "X", saveTimeCB := fun _ _ => 5 }

/-! ## Theorems -/

attribute [local semireducible] Rat.add Rat.mul Rat.sub Rat.inv Rat.ofScientific

/-- Helper: the comparator only ever reports `none`, `0`, `1` or `-1`. -/
theorem compareTimes_cases (t1 t2 : ℚ) :
    compareTimes t1 t2 = none ∨ compareTimes t1 t2 = some 0 ∨
    compareTimes t1 t2 = some 1 ∨ compareTimes t1 t2 = some (-1) := by
  unfold compareTimes
  split
  · exact Or.inl rfl
  · split
    · exact Or.inr (Or.inl rfl)
    · split
      · exact Or.inr (Or.inr (Or.inl rfl))
      · exact Or.inr (Or.inr (Or.inr rfl))

/-- C4: on nonzero timestamps the comparator reports "same time" exactly
within the documented tolerance `|t1 - t2| <= max(1e-09 * max(|t1|, |t2|), 0)`,
"first newer" exactly when `t1 > t2` outside the tolerance, and "second
newer" exactly when `t2 > t1` outside the tolerance. -/
theorem c4_compare_times_spec (t1 t2 : ℚ) (h1 : t1 ≠ 0) (h2 : t2 ≠ 0) :
    relTol = 1 / 1000000000 ∧
    (compareTimes t1 t2 = some 0 ↔ |t1 - t2| ≤ max (relTol * max |t1| |t2|) 0) ∧
    (compareTimes t1 t2 = some 1 ↔
      t1 > t2 ∧ ¬ |t1 - t2| ≤ max (relTol * max |t1| |t2|) 0) ∧
    (compareTimes t1 t2 = some (-1) ↔
      t2 > t1 ∧ ¬ |t1 - t2| ≤ max (relTol * max |t1| |t2|) 0) := by
  have hcond : (t1 == 0 || t2 == 0) = false := by
    simp [beq_iff_eq, h1, h2]
  have hkey : compareTimes t1 t2 =
      (if isclose t1 t2 then some 0 else if t1 > t2 then some 1 else some (-1)) := by
    unfold compareTimes
    rw [hcond]
    rfl
  refine ⟨rfl, ?_⟩
  by_cases hc : |t1 - t2| ≤ max (relTol * max |t1| |t2|) 0
  · have hcb : isclose t1 t2 = true := by
      unfold isclose
      rw [if_pos hc]
    rw [hkey, if_pos hcb]
    exact ⟨⟨fun _ => hc, fun _ => rfl⟩,
      ⟨fun h => absurd (Option.some.inj h) (by decide), fun h => absurd hc h.2⟩,
      ⟨fun h => absurd (Option.some.inj h) (by decide), fun h => absurd hc h.2⟩⟩
  · have hne : t1 ≠ t2 := by
      intro h
      exact hc (by rw [h, sub_self, abs_zero]; exact le_max_right _ _)
    have hcb : isclose t1 t2 = false := by
      unfold isclose
      rw [if_neg hc]
    rw [hkey, hcb]
    simp only [Bool.false_eq_true, if_false]
    by_cases hgt : t1 > t2
    · rw [if_pos hgt]
      exact ⟨⟨fun h => absurd (Option.some.inj h) (by decide), fun h => absurd h hc⟩,
        ⟨fun _ => ⟨hgt, hc⟩, fun _ => rfl⟩,
        ⟨fun h => absurd (Option.some.inj h) (by decide), fun h => absurd h.1 (lt_asymm hgt)⟩⟩
    · have hlt : t2 > t1 := lt_of_le_of_ne (not_lt.mp hgt) hne
      rw [if_neg hgt]
      exact ⟨⟨fun h => absurd (Option.some.inj h) (by decide), fun h => absurd h hc⟩,
        ⟨fun h => absurd (Option.some.inj h) (by decide), fun h => absurd h.1 hgt⟩,
        ⟨fun _ => ⟨hlt, hc⟩, fun _ => rfl⟩⟩

/-- C4 witness: the comparator spec instantiated at the concrete nonzero
pair `(3, 1)`. -/
theorem c4_witness :
    relTol = 1 / 1000000000 ∧
    (compareTimes 3 1 = some 0 ↔ |(3:ℚ) - 1| ≤ max (relTol * max |(3:ℚ)| |(1:ℚ)|) 0) ∧
    (compareTimes 3 1 = some 1 ↔
      (3:ℚ) > 1 ∧ ¬ |(3:ℚ) - 1| ≤ max (relTol * max |(3:ℚ)| |(1:ℚ)|) 0) ∧
    (compareTimes 3 1 = some (-1) ↔
      (1:ℚ) > 3 ∧ ¬ |(3:ℚ) - 1| ≤ max (relTol * max |(3:ℚ)| |(1:ℚ)|) 0) :=
  c4_compare_times_spec 3 1 (by norm_num) (by norm_num)



theorem internalErrorEvent_ne_extractFail (p : String) :
    extractFailEvent p ≠ internalErrorEvent := by
  intro h
  have := congrArg Event.priority h
  simp [extractFailEvent, internalErrorEvent] at this

theorem internalErrorEvent_ne_conflict (g : GameEntry) :
    conflictEvent g ≠ internalErrorEvent := by
  intro h
  have := congrArg (fun e => e.title.length) h
  simp only [conflictEvent, internalErrorEvent, String.length_append] at this
  have h24 : ("Failed to sync save for ").length = 24 := rfl
  have h21 : ("Internal script error").length = 21 := rfl
  rw [h24, h21] at this
  omega

theorem internalErrorEvent_ne_sync (g : GameEntry) (s : Side) (n : String) (b : Bytes) :
    syncEventFor g s n b ≠ internalErrorEvent := by
  intro h
  have := congrArg Event.priority h
  simp [syncEventFor, internalErrorEvent] at this

theorem count_append_single_ne (es : List Event) (e a : Event) (h : e ≠ a) :
    (es ++ [e]).count a = es.count a := by
  rw [List.count_append]
  simp [List.count_singleton', h]

/-- C10: on any pair of extracted times the comparator reports one of
"failure" (`none`), `0`, `1` or `-1`, and the "should never happen"
internal-error branch of the first pass is unreachable: no input ever adds
the internal-error event (its count in the event list is preserved by
every step). -/
theorem c10_internal_branch_unreachable :
    (∀ t1 t2 : ℚ, compareTimes t1 t2 = none ∨ compareTimes t1 t2 = some 0 ∨
      compareTimes t1 t2 = some 1 ∨ compareTimes t1 t2 = some (-1)) ∧
    (∀ (g : GameEntry) (dboxNames : List String) (st : SyncState) (n : String),
      (pass1Step g dboxNames st n).events.count internalErrorEvent =
        st.events.count internalErrorEvent) := by
  refine ⟨compareTimes_cases, fun g dboxNames st n => ?_⟩
  unfold pass1Step
  split
  · rfl
  · split
    · rfl
    · rename_i fdata _
      dsimp only
      split
      · exact count_append_single_ne _ _ _ (internalErrorEvent_ne_extractFail _)
      · split
        · rfl
        · split
          · rename_i dn ddata heqfind
            split
            · rfl
            · split
              · rfl
              · rename_i r heqcmp
                split
                · exact count_append_single_ne _ _ _ (internalErrorEvent_ne_conflict _)
                · split
                  · unfold doSyncSave
                    split
                    · rfl
                    · exact count_append_single_ne _ _ _ (internalErrorEvent_ne_sync _ _ _ _)
                  · split
                    · unfold doSyncSave
                      split
                      · rfl
                      · exact count_append_single_ne _ _ _ (internalErrorEvent_ne_sync _ _ _ _)
                    · -- unreachable: r is none/0/1/-1
                      exfalso
                      rename_i hr0 hr1 hrm
                      rcases compareTimes_cases (g.saveTimeCB n fdata) (g.saveTimeCB dn ddata) with h | h | h | h <;>
                        rw [show compareFileTimes g n fdata dn ddata =
                          compareTimes (g.saveTimeCB n fdata) (g.saveTimeCB dn ddata) from rfl, h] at heqcmp
                      · exact Option.noConfusion heqcmp
                      · exact hr0 (by rw [← Option.some.inj heqcmp]; decide)
                      · exact hr1 (by rw [← Option.some.inj heqcmp]; decide)
                      · exact hrm (by rw [← Option.some.inj heqcmp]; decide)
          · unfold doSyncSave
            split
            · rfl
            · exact count_append_single_ne _ _ _ (internalErrorEvent_ne_sync _ _ _ _)


/-- Soundness of the linear identity scan: a returned file is one of the
scanned names, holds its returned data in the directory, and resolves to
the requested key. -/
theorem findFile_sound (g : GameEntry) (names : List String) (d : Dir) (key : String)
    (p : String × FileData) (h : findFileFromBasename g names d key = some p) :
    p.1 ∈ names ∧ dirLookup d p.1 = some p.2 ∧ g.saveNameCB p.1 p.2.bytes = key := by
  induction names with
  | nil => exact absurd h (by simp [findFileFromBasename])
  | cons a rest ih =>
    unfold findFileFromBasename at h
    revert h
    split
    · rename_i data heq
      split
      · rename_i hkey
        intro h
        cases h
        exact ⟨List.mem_cons_self _ _, heq, by
          have := of_decide_eq_true hkey
          exact this⟩
      · intro h
        obtain ⟨h1, h2, h3⟩ := ih h
        exact ⟨List.mem_cons_of_mem _ h1, h2, h3⟩
    · intro h
      obtain ⟨h1, h2, h3⟩ := ih h
      exact ⟨List.mem_cons_of_mem _ h1, h2, h3⟩

/-- Completeness of the linear identity scan: when some scanned name
currently resolves to the key, the scan returns a file. -/
theorem findFile_complete (g : GameEntry) (names : List String) (d : Dir) (key : String)
    (n : String) (f : FileData) (hn : n ∈ names) (hl : dirLookup d n = some f)
    (hk : g.saveNameCB n f.bytes = key) :
    ∃ p, findFileFromBasename g names d key = some p := by
  induction names with
  | nil => exact absurd hn (List.not_mem_nil n)
  | cons a rest ih =>
    unfold findFileFromBasename
    rcases List.mem_cons.mp hn with h | hmem
    · subst h
      rw [hl]
      have hb : (g.saveNameCB n f.bytes == key) = true := by
        rw [hk]
        exact beq_self_eq_true key
      simp only [hb, if_true]
      exact ⟨_, rfl⟩
    · cases hdl : dirLookup d a with
      | none =>
        exact ih hmem
      | some data =>
        dsimp only
        by_cases hb : (g.saveNameCB a data.bytes == key) = true
        · simp only [hb, if_true]
          exact ⟨_, rfl⟩
        · simp only [hb, if_false]
          exact ih hmem

/-- Evaluation of `doSyncSave` when the source file exists. -/
theorem doSyncSave_eval (g : GameEntry) (st : SyncState) (fs : Side) (fn : String)
    (ts : Side) (tn : String) (src : FileData)
    (h : dirLookup (st.getDir fs) fn = some src) :
    doSyncSave g st fs fn ts tn =
      { st.setDir ts (dirWrite (st.getDir ts) tn ⟨src.bytes, st.clock⟩) with
          clock := st.clock + 1
          copies := st.copies ++ [⟨fs, fn, ts, tn⟩]
          events := st.events ++ [syncEventFor g fs fn src.bytes] } := by
  unfold doSyncSave
  rw [h]

/-- Evaluation of the first-pass body when the identity is valid and a
dropbox match is found. -/
theorem pass1Step_found (g : GameEntry) (dn : List String) (st : SyncState)
    (n : String) (f : FileData) (m : String) (dd : FileData)
    (hab : st.aborted = false) (hf : dirLookup st.steam n = some f)
    (hv1 : (g.saveNameCB n f.bytes == "") = false)
    (hv2 : (g.saveNameCB n f.bytes == ("__IGNORE__")) = false)
    (hfind : findFileFromBasename g dn st.dbox (g.saveNameCB n f.bytes) = some (m, dd)) :
    pass1Step g dn st n =
      (if savesAreSame dd f then st
       else
         match compareFileTimes g n f m dd with
         | none => { st with aborted := true }
         | some r =>
           if r == 0 then { st with events := st.events ++ [conflictEvent g] }
           else if r == 1 then doSyncSave g st Side.steam n Side.dropbox m
           else if r == (-1) then doSyncSave g st Side.dropbox m Side.steam n
           else { st with events := st.events ++ [internalErrorEvent], aborted := true }) := by
  unfold pass1Step
  rw [hab, hf]
  simp only [Bool.false_eq_true, if_false]
  rw [hv1, hv2, hfind]
  simp only [Bool.false_eq_true, if_false]

/-- Evaluation of the first-pass body when the identity is valid and no
dropbox match is found. -/
theorem pass1Step_notfound (g : GameEntry) (dn : List String) (st : SyncState)
    (n : String) (f : FileData)
    (hab : st.aborted = false) (hf : dirLookup st.steam n = some f)
    (hv1 : (g.saveNameCB n f.bytes == "") = false)
    (hv2 : (g.saveNameCB n f.bytes == ("__IGNORE__")) = false)
    (hfind : findFileFromBasename g dn st.dbox (g.saveNameCB n f.bytes) = none) :
    pass1Step g dn st n = doSyncSave g st Side.steam n Side.dropbox n := by
  unfold pass1Step
  rw [hab, hf]
  simp only [Bool.false_eq_true, if_false]
  rw [hv1, hv2, hfind]
  simp only [Bool.false_eq_true, if_false]

/-- Evaluation of the first-pass body on the `IGNORE` sentinel. -/
theorem pass1Step_ignore (g : GameEntry) (dn : List String) (st : SyncState)
    (n : String) (f : FileData)
    (hab : st.aborted = false) (hf : dirLookup st.steam n = some f)
    (hig : g.saveNameCB n f.bytes = ("__IGNORE__")) :
    pass1Step g dn st n = st := by
  unfold pass1Step
  rw [hab, hf]
  simp only [Bool.false_eq_true, if_false]
  rw [hig]
  simp

/-- Evaluation of the first-pass body on the `EMPTY` sentinel. -/
theorem pass1Step_empty (g : GameEntry) (dn : List String) (st : SyncState)
    (n : String) (f : FileData)
    (hab : st.aborted = false) (hf : dirLookup st.steam n = some f)
    (hig : g.saveNameCB n f.bytes = "") :
    pass1Step g dn st n =
      { st with events := st.events ++ [extractFailEvent (joinPath g.steamPath n)] } := by
  unfold pass1Step
  rw [hab, hf]
  simp only [Bool.false_eq_true, if_false]
  rw [hig]
  simp

/-- Evaluation of the second-pass body when the identity is valid and a
steam match is found. -/
theorem pass2Step_found (g : GameEntry) (sn : List String) (st : SyncState)
    (n : String) (f : FileData) (p : String × FileData)
    (hab : st.aborted = false) (hf : dirLookup st.dbox n = some f)
    (hv1 : (g.saveNameCB n f.bytes == "") = false)
    (hv2 : (g.saveNameCB n f.bytes == ("__IGNORE__")) = false)
    (hfind : findFileFromBasename g sn st.steam (g.saveNameCB n f.bytes) = some p) :
    pass2Step g sn st n = st := by
  unfold pass2Step
  rw [hab, hf]
  simp only [Bool.false_eq_true, if_false]
  rw [hv1, hv2, hfind]
  simp only [Bool.false_eq_true, if_false]

/-- Evaluation of the second-pass body when the identity is valid and no
steam match is found. -/
theorem pass2Step_notfound (g : GameEntry) (sn : List String) (st : SyncState)
    (n : String) (f : FileData)
    (hab : st.aborted = false) (hf : dirLookup st.dbox n = some f)
    (hv1 : (g.saveNameCB n f.bytes == "") = false)
    (hv2 : (g.saveNameCB n f.bytes == ("__IGNORE__")) = false)
    (hfind : findFileFromBasename g sn st.steam (g.saveNameCB n f.bytes) = none) :
    pass2Step g sn st n = doSyncSave g st Side.dropbox n Side.steam n := by
  unfold pass2Step
  rw [hab, hf]
  simp only [Bool.false_eq_true, if_false]
  rw [hv1, hv2, hfind]
  simp only [Bool.false_eq_true, if_false]

/-- Evaluation of the second-pass body on the `IGNORE` sentinel. -/
theorem pass2Step_ignore (g : GameEntry) (sn : List String) (st : SyncState)
    (n : String) (f : FileData)
    (hab : st.aborted = false) (hf : dirLookup st.dbox n = some f)
    (hig : g.saveNameCB n f.bytes = ("__IGNORE__")) :
    pass2Step g sn st n = st := by
  unfold pass2Step
  rw [hab, hf]
  simp only [Bool.false_eq_true, if_false]
  rw [hig]
  simp

/-- Evaluation of the second-pass body on the `EMPTY` sentinel. -/
theorem pass2Step_empty (g : GameEntry) (sn : List String) (st : SyncState)
    (n : String) (f : FileData)
    (hab : st.aborted = false) (hf : dirLookup st.dbox n = some f)
    (hig : g.saveNameCB n f.bytes = "") :
    pass2Step g sn st n =
      { st with events := st.events ++ [extractFailEvent (joinPath g.dropboxPath n)] } := by
  unfold pass2Step
  rw [hab, hf]
  simp only [Bool.false_eq_true, if_false]
  rw [hig]
  simp

/-- A valid identity is neither sentinel, in `==` form. -/
theorem validId_beq (s : String) (h : validId s = true) :
    (s == "") = false ∧ (s == ("__IGNORE__")) = false := by
  unfold validId at h
  constructor
  · cases hb : s == ""
    · rfl
    · rw [hb] at h
      simp at h
  · cases hb : s == ("__IGNORE__")
    · rfl
    · rw [hb] at h
      simp at h

/-- C1: a file on one side whose resolved identity is valid and has no
matching identity on the other side at its processing step is copied to
the other side (steam to dropbox in the first pass, dropbox to steam in
the second pass), landing under its own base name with its source bytes. -/
theorem c1_unmatched_file_copied :
    (∀ (g : GameEntry) (dn : List String) (st : SyncState) (n : String) (f : FileData),
      st.aborted = false → dirLookup st.steam n = some f →
      validId (g.saveNameCB n f.bytes) = true →
      findFileFromBasename g dn st.dbox (g.saveNameCB n f.bytes) = none →
      (pass1Step g dn st n).copies = st.copies ++ [⟨Side.steam, n, Side.dropbox, n⟩] ∧
      (pass1Step g dn st n).dbox = dirWrite st.dbox n ⟨f.bytes, st.clock⟩ ∧
      (pass1Step g dn st n).steam = st.steam) ∧
    (∀ (g : GameEntry) (sn : List String) (st : SyncState) (n : String) (f : FileData),
      st.aborted = false → dirLookup st.dbox n = some f →
      validId (g.saveNameCB n f.bytes) = true →
      findFileFromBasename g sn st.steam (g.saveNameCB n f.bytes) = none →
      (pass2Step g sn st n).copies = st.copies ++ [⟨Side.dropbox, n, Side.steam, n⟩] ∧
      (pass2Step g sn st n).steam = dirWrite st.steam n ⟨f.bytes, st.clock⟩ ∧
      (pass2Step g sn st n).dbox = st.dbox) := by
  constructor
  · intro g dn st n f hab hf hv hfind
    obtain ⟨hv1, hv2⟩ := validId_beq _ hv
    rw [pass1Step_notfound g dn st n f hab hf hv1 hv2 hfind,
      doSyncSave_eval g st Side.steam n Side.dropbox n f hf]
    exact ⟨rfl, rfl, rfl⟩
  · intro g sn st n f hab hf hv hfind
    obtain ⟨hv1, hv2⟩ := validId_beq _ hv
    rw [pass2Step_notfound g sn st n f hab hf hv1 hv2 hfind,
      doSyncSave_eval g st Side.dropbox n Side.steam n f hf]
    exact ⟨rfl, rfl, rfl⟩

/-- C1 witness: in the concrete two-file scenario the steam-only file is
copied to dropbox and the dropbox-only file to steam. -/
theorem c1_witness :
    ((pass1Step entryDefault ["B"] c1St "A").copies =
        c1St.copies ++ [⟨Side.steam, "A", Side.dropbox, "A"⟩] ∧
      (pass1Step entryDefault ["B"] c1St "A").dbox =
        dirWrite c1St.dbox "A" ⟨[1], c1St.clock⟩ ∧
      (pass1Step entryDefault ["B"] c1St "A").steam = c1St.steam) ∧
    ((pass2Step entryDefault ["A"] c1St "B").copies =
        c1St.copies ++ [⟨Side.dropbox, "B", Side.steam, "B"⟩] ∧
      (pass2Step entryDefault ["A"] c1St "B").steam =
        dirWrite c1St.steam "B" ⟨[2], c1St.clock⟩ ∧
      (pass2Step entryDefault ["A"] c1St "B").dbox = c1St.dbox) :=
  ⟨c1_unmatched_file_copied.1 entryDefault ["B"] c1St "A" ⟨[1], 1⟩ rfl (by decide)
      (by decide) (by decide),
    c1_unmatched_file_copied.2 entryDefault ["A"] c1St "B" ⟨[2], 2⟩ rfl (by decide)
      (by decide) (by decide)⟩

/-- C6: when a matched pair is divergent and either extracted save time is
`0`, the run is aborted at that pair and no copy is performed in either
direction: the directories, the copy list and the event list are unchanged. -/
theorem c6_zero_time_fatal (g : GameEntry) (dn : List String) (st : SyncState)
    (n : String) (f : FileData) (m : String) (dd : FileData)
    (hab : st.aborted = false) (hf : dirLookup st.steam n = some f)
    (hv : validId (g.saveNameCB n f.bytes) = true)
    (hfind : findFileFromBasename g dn st.dbox (g.saveNameCB n f.bytes) = some (m, dd))
    (hdiff : savesAreSame dd f = false)
    (hz : g.saveTimeCB n f = 0 ∨ g.saveTimeCB m dd = 0) :
    (pass1Step g dn st n).aborted = true ∧
    (pass1Step g dn st n).copies = st.copies ∧
    (pass1Step g dn st n).steam = st.steam ∧
    (pass1Step g dn st n).dbox = st.dbox ∧
    (pass1Step g dn st n).events = st.events := by
  obtain ⟨hv1, hv2⟩ := validId_beq _ hv
  have hcmp : compareFileTimes g n f m dd = none := by
    unfold compareFileTimes compareTimes
    rcases hz with h | h <;> simp [h]
  rw [pass1Step_found g dn st n f m dd hab hf hv1 hv2 hfind, hdiff]
  simp only [Bool.false_eq_true, if_false, hcmp]
  exact ⟨trivial, trivial, trivial, trivial, trivial⟩

/-- C6 witness: a divergent matched pair whose steam save time is `0`
aborts the run with no copy. -/
theorem c6_witness :
    (pass1Step c6G ["B"] c6St "A").aborted = true ∧
    (pass1Step c6G ["B"] c6St "A").copies = c6St.copies ∧
    (pass1Step c6G ["B"] c6St "A").steam = c6St.steam ∧
    (pass1Step c6G ["B"] c6St "A").dbox = c6St.dbox ∧
    (pass1Step c6G ["B"] c6St "A").events = c6St.events :=
  c6_zero_time_fatal c6G ["B"] c6St "A" ⟨[1], 0⟩ "B" ⟨[2, 2], 9⟩ rfl (by decide)
    (by decide) (by decide) (by decide) (Or.inl (by norm_num [c6G]))

/-- C3 refutation: a matched pair with equal sizes and equal mtimes but
different byte contents is treated as "already in sync": the step takes no
copy action and emits no event (the state is unchanged), although the byte
contents differ, because `filecmp.cmp` is called with its default shallow
mode. -/
theorem c3_counterexample :
    pass1Step entryConstK ["B"] c3St "A" = c3St ∧
    savesAreSame (⟨[3, 4], 5⟩ : FileData) (⟨[1, 2], 5⟩ : FileData) = true ∧
    (⟨[3, 4], 5⟩ : FileData).bytes ≠ (⟨[1, 2], 5⟩ : FileData).bytes := by
  refine ⟨?_, by decide, by decide⟩
  decide

/-- C3 amended: with a valid identity matched on both sides, the step
leaves the state entirely unchanged (no copy, no event) exactly when
`savesAreSame` holds, i.e. when the two files have equal stat signatures
(size and mtime) or equal byte content. -/
theorem c3_shallow_equality_decides (g : GameEntry) (dn : List String) (st : SyncState)
    (n : String) (f : FileData) (m : String) (dd : FileData)
    (hab : st.aborted = false) (hf : dirLookup st.steam n = some f)
    (hv : validId (g.saveNameCB n f.bytes) = true)
    (hfind : findFileFromBasename g dn st.dbox (g.saveNameCB n f.bytes) = some (m, dd)) :
    pass1Step g dn st n = st ↔ savesAreSame dd f = true := by
  obtain ⟨hv1, hv2⟩ := validId_beq _ hv
  rw [pass1Step_found g dn st n f m dd hab hf hv1 hv2 hfind]
  constructor
  · intro h
    by_contra hS
    have hSf : savesAreSame dd f = false := by
      cases hx : savesAreSame dd f
      · rfl
      · exact absurd hx hS
    rw [hSf] at h
    simp only [Bool.false_eq_true, if_false] at h
    have hdl : dirLookup st.dbox m = some dd := (findFile_sound g dn st.dbox _ _ hfind).2.1
    rcases compareTimes_cases (g.saveTimeCB n f) (g.saveTimeCB m dd) with hc | hc | hc | hc <;>
      rw [show compareFileTimes g n f m dd =
        compareTimes (g.saveTimeCB n f) (g.saveTimeCB m dd) from rfl, hc] at h
    · have := congrArg SyncState.aborted h
      simp only at this
      rw [hab] at this
      cases this
    · simp only [show ((0 : Int) == 0) = true from rfl, if_true] at h
      have := congrArg (fun s => s.events.length) h
      simp only [List.length_append, List.length_singleton] at this
      omega
    · simp only [show ((1 : Int) == 0) = false from rfl, show ((1 : Int) == 1) = true from rfl,
        Bool.false_eq_true, if_false, if_true] at h
      rw [doSyncSave_eval g st Side.steam n Side.dropbox m f hf] at h
      have := congrArg (fun s => s.copies.length) h
      simp only [List.length_append, List.length_singleton] at this
      omega
    · simp only [show ((-1 : Int) == 0) = false from rfl, show ((-1 : Int) == 1) = false from rfl,
        show ((-1 : Int) == -1) = true from rfl, Bool.false_eq_true, if_false, if_true] at h
      rw [doSyncSave_eval g st Side.dropbox m Side.steam n dd hdl] at h
      have := congrArg (fun s => s.copies.length) h
      simp only [List.length_append, List.length_singleton] at this
      omega
  · intro h
    rw [h]
    simp

/-- C3 amended witness: a pair with equal byte contents is left unchanged,
and `savesAreSame` holds for it. -/
theorem c3_witness :
    (pass1Step entryConstK ["B"] c3wSt "A" = c3wSt ↔
      savesAreSame (⟨[1, 2], 9⟩ : FileData) (⟨[1, 2], 5⟩ : FileData) = true) ∧
    savesAreSame (⟨[1, 2], 9⟩ : FileData) (⟨[1, 2], 5⟩ : FileData) = true :=
  ⟨c3_shallow_equality_decides entryConstK ["B"] c3wSt "A" ⟨[1, 2], 5⟩ "B" ⟨[1, 2], 9⟩
      rfl (by decide) (by decide) (by decide),
    by decide⟩

/-- C9: ignored files are excluded from both passes with no event and no
state change at all; the autosave naming convention resolves to the
`IGNORE` sentinel before the archive is even opened; and an identity
lookup only ever returns a file resolving to the requested key, so a file
holding a sentinel identity is never returned for the valid keys the
engine looks up. -/
theorem c9_sentinels_excluded :
    (∀ (name : String) (c : POEArchive) (b tail : List Char),
      rpartitionSpace name.data = some (b, tail) →
      ("autosave_").data.isPrefixOf tail = true →
      POESaveName name c = Except.ok ("__IGNORE__")) ∧
    (∀ (g : GameEntry) (dn : List String) (st : SyncState) (n : String) (f : FileData),
      st.aborted = false → dirLookup st.steam n = some f →
      g.saveNameCB n f.bytes = ("__IGNORE__") → pass1Step g dn st n = st) ∧
    (∀ (g : GameEntry) (sn : List String) (st : SyncState) (n : String) (f : FileData),
      st.aborted = false → dirLookup st.dbox n = some f →
      g.saveNameCB n f.bytes = ("__IGNORE__") → pass2Step g sn st n = st) ∧
    (∀ (g : GameEntry) (names : List String) (d : Dir) (key : String)
      (p : String × FileData),
      findFileFromBasename g names d key = some p → entryId g p = key) := by
  refine ⟨?_, ?_, ?_, ?_⟩
  · intro name c b tail h1 h2
    unfold POESaveName
    rw [h1]
    simp only [h2, if_true]
  · intro g dn st n f hab hf hig
    exact pass1Step_ignore g dn st n f hab hf hig
  · intro g sn st n f hab hf hig
    exact pass2Step_ignore g sn st n f hab hf hig
  · intro g names d key p h
    exact (findFile_sound g names d key p h).2.2

/-- C9 witness: a concrete autosave name maps to `IGNORE`, concrete ignored
files are skipped without trace by both passes, and a concrete lookup
returns a file resolving to the requested key. -/
theorem c9_witness :
    POESaveName ("Chapter2 autosave_001.savegame") POEArchive.notZip =
      Except.ok ("__IGNORE__") ∧
    pass1Step c9G ["I"] c9St "I" = c9St ∧
    pass2Step c9G ["I", "A"] c9St "I" = c9St ∧
    entryId c9G ("A", ⟨[3], 3⟩) = "A" :=
  ⟨c9_sentinels_excluded.1 ("Chapter2 autosave_001.savegame") POEArchive.notZip
      _ _ rfl (by decide),
    c9_sentinels_excluded.2.1 c9G ["I"] c9St "I" ⟨[1], 1⟩ rfl (by decide) (by decide),
    c9_sentinels_excluded.2.2.1 c9G ["I", "A"] c9St "I" ⟨[2], 2⟩ rfl (by decide) (by decide),
    c9_sentinels_excluded.2.2.2 c9G ["A"] [("A", ⟨[3], 3⟩)] "A" ("A", ⟨[3], 3⟩) (by decide)⟩

/-- C2 (code bug): on a matched pair with the same valid identity `"QQQ"`,
different contents and equal nonzero timestamps, the step performs zero
copy actions and emits exactly one critical event — but the event does not
name the identity: the script never calls `.format` on the message
template, so the message is the literal template, its placeholder braces
included, and the identity string appears in neither the title nor the
message. -/
theorem c2_conflict_event_bug :
    (pass1Step c2G ["B"] c2St "A").copies = [] ∧
    (pass1Step c2G ["B"] c2St "A").steam = c2St.steam ∧
    (pass1Step c2G ["B"] c2St "A").dbox = c2St.dbox ∧
    (pass1Step c2G ["B"] c2St "A").events = [conflictEvent c2G] ∧
    (conflictEvent c2G).priority = Priority.critical ∧
    savesAreSame (⟨[2, 2], 4⟩ : FileData) (⟨[1], 3⟩ : FileData) = false ∧
    compareFileTimes c2G "A" ⟨[1], 3⟩ "B" ⟨[2, 2], 4⟩ = some 0 ∧
    ¬ ("QQQ").data <:+: (conflictEvent c2G).message.data ∧
    ¬ ("QQQ").data <:+: (conflictEvent c2G).title.data ∧
    ("\x7b\x7d").data <:+: (conflictEvent c2G).message.data := by
  set_option maxRecDepth 10000 in decide

/-- C7 (code bug): the archive-based extraction callbacks do raise.
`POESaveName` returns the `EMPTY` sentinel only for a malformed *name*;
on a well-formed name over malformed *content* (not a zip archive) it
raises `BadZipFile` instead of returning a value, and `POESaveTime`
raises `ValueError` when the `RealTimestamp` value does not parse,
returning `0` only when the field is absent. -/
theorem c7_extraction_raises :
    POESaveName ("Foo Bar.savegame") POEArchive.notZip =
      Except.error PyError.badZipFile ∧
    POESaveTime (fun _ => none) (POEArchive.simples [("RealTimestamp", "garbage")]) =
      Except.error PyError.valueError ∧
    POESaveName ("NoSpaceName") POEArchive.notZip = Except.ok "" ∧
    POESaveTime (fun _ => none) (POEArchive.simples []) = Except.ok 0 ∧
    POESaveName ("Foo Bar.savegame") POEArchive.missingSaveinfo =
      Except.error PyError.keyError ∧
    POESaveName ("Foo Bar.savegame") POEArchive.badXml =
      Except.error PyError.parseError ∧
    POESaveName ("Foo Bar.savegame") POEArchive.emptyRoot =
      Except.error PyError.indexError :=
  ⟨rfl, rfl, rfl, rfl, rfl, rfl, rfl⟩

/-- C8 refutation: when the first entry's directory listing fails, the run
dies immediately: the second, healthy entry is not processed at all, even
though running it alone performs a copy. -/
theorem c8_counterexample :
    runAll [c8Bad, c8Good] 0 = ([], true) ∧
    (runAll [c8Good] 0).1.map SyncState.copies =
      [[⟨Side.steam, "A", Side.dropbox, "A"⟩]] := by
  constructor
  · rfl
  · decide

/-- C8 amended: a directory-listing failure is fatal to the whole run, not
just to the affected entry: whatever entries follow the failing one
contribute nothing, so the run behaves exactly as if the list ended at the
failing entry. -/
theorem c8_listing_failure_aborts_run (es1 es2 : List EntryConfig) (e : EntryConfig)
    (c : ℚ) (hfail : e.steamDir = none ∨ e.dboxDir = none) :
    runAll (es1 ++ e :: es2) c = runAll (es1 ++ [e]) c := by
  have hre : ∀ c' : ℚ, runEntry e c' = none := by
    intro c'
    unfold runEntry
    rcases hfail with h | h
    · rw [h]
    · rw [h]
      cases e.steamDir <;> rfl
  induction es1 generalizing c with
  | nil =>
    simp only [List.nil_append]
    unfold runAll
    rw [hre]
  | cons a rest ih =>
    simp only [List.cons_append]
    unfold runAll
    cases runEntry a c with
    | none => rfl
    | some st =>
      dsimp only
      cases st.aborted
      · simp only [Bool.false_eq_true, if_false]
        rw [ih]
      · rfl

/-- C8 amended witness: with a healthy entry before and after the failing
one, the run equals the run truncated at the failing entry. -/
theorem c8_witness :
    runAll ([c8Good] ++ c8Bad :: [c8Good]) 0 = runAll ([c8Good] ++ [c8Bad]) 0 :=
  c8_listing_failure_aborts_run [c8Good] [c8Good] c8Bad 0 (Or.inl rfl)

/-- C5 refutation: reconciliation is not idempotent.  With two steam files
carrying the same logical identity and an initially empty dropbox
directory, the first run copies both to dropbox (the stale pass-one
listing hides the first copy from the second file's lookup); in the second
run the second steam file is matched against the first copy, found
divergent and newer, and copied again.  The second run performs one copy. -/
theorem c5_counterexample :
    c5Run1.copies =
      [⟨Side.steam, "A", Side.dropbox, "A"⟩, ⟨Side.steam, "B", Side.dropbox, "B"⟩] ∧
    (syncEntry entryConstId c5Run1.steam c5Run1.dbox c5Run1.clock).copies =
      [⟨Side.steam, "B", Side.dropbox, "A"⟩] := by
  constructor
  · decide
  · decide

/-! ### Association-list lemmas for directories -/

theorem mem_of_dirLookup (d : Dir) (n : String) (f : FileData)
    (h : dirLookup d n = some f) : (n, f) ∈ d := by
  induction d with
  | nil => exact absurd h (by simp [dirLookup])
  | cons p rest ih =>
    unfold dirLookup at h
    rw [List.find?] at h
    revert h
    cases hb : (p.1 == n)
    · intro h
      exact List.mem_cons_of_mem _ (ih h)
    · intro h
      cases h
      have : p.1 = n := by
        have := of_decide_eq_true hb
        exact this
      exact List.mem_cons.mpr (Or.inl (by cases p; simp_all))

theorem names_of_dirLookup (d : Dir) (n : String) (f : FileData)
    (h : dirLookup d n = some f) : n ∈ d.map Prod.fst :=
  List.mem_map.mpr ⟨(n, f), mem_of_dirLookup d n f h, rfl⟩

theorem dirLookup_of_mem_names (d : Dir) (n : String) (h : n ∈ d.map Prod.fst) :
    ∃ f, dirLookup d n = some f := by
  induction d with
  | nil => exact absurd h (by simp)
  | cons p rest ih =>
    unfold dirLookup
    rw [List.find?]
    cases hb : (p.1 == n)
    · rcases List.mem_map.mp h with ⟨q, hq, hq1⟩
      rcases List.mem_cons.mp hq with rfl | hq'
      · rw [hq1] at hb
        simp at hb
      · exact ih (List.mem_map.mpr ⟨q, hq', hq1⟩)
    · exact ⟨p.2, rfl⟩

theorem dirLookup_none_of_not_mem_names (d : Dir) (n : String)
    (h : n ∉ d.map Prod.fst) : dirLookup d n = none := by
  cases hl : dirLookup d n with
  | none => rfl
  | some f => exact absurd (names_of_dirLookup d n f hl) h

theorem dirLookup_of_mem (d : Dir) (n : String) (f : FileData)
    (hnd : (d.map Prod.fst).Nodup) (h : (n, f) ∈ d) : dirLookup d n = some f := by
  induction d with
  | nil => exact absurd h (List.not_mem_nil _)
  | cons p rest ih =>
    unfold dirLookup
    rw [List.find?]
    rcases List.mem_cons.mp h with rfl | h'
    · simp only [beq_self_eq_true]
    · cases hb : (p.1 == n)
      · exact ih (List.Nodup.of_cons hnd) h'
      · exfalso
        have hpn : p.1 = n := of_decide_eq_true hb
        have : n ∈ rest.map Prod.fst := List.mem_map.mpr ⟨(n, f), h', rfl⟩
        rw [List.map_cons, List.nodup_cons, hpn] at hnd
        exact hnd.1 this

theorem mem_dirWrite (d : Dir) (m : String) (x : FileData)
    (hnd : (d.map Prod.fst).Nodup) (q : String × FileData) :
    q ∈ dirWrite d m x ↔ (q ∈ d ∧ q.1 ≠ m) ∨ q = (m, x) := by
  induction d with
  | nil => simp [dirWrite]
  | cons p rest ih =>
    unfold dirWrite
    cases hb : (p.1 == m)
    · simp only [Bool.false_eq_true, if_false]
      constructor
      · intro h
        rcases List.mem_cons.mp h with rfl | h'
        · exact Or.inl ⟨List.mem_cons_self _ _, by
            intro hqm
            rw [hqm] at hb
            simp at hb⟩
        · rcases (ih (List.Nodup.of_cons hnd)).mp h' with ⟨h1, h2⟩ | h1
          · exact Or.inl ⟨List.mem_cons_of_mem _ h1, h2⟩
          · exact Or.inr h1
      · intro h
        rcases h with ⟨h1, h2⟩ | h1
        · rcases List.mem_cons.mp h1 with rfl | h'
          · exact List.mem_cons_self _ _
          · exact List.mem_cons_of_mem _ ((ih (List.Nodup.of_cons hnd)).mpr (Or.inl ⟨h', h2⟩))
        · exact List.mem_cons_of_mem _ ((ih (List.Nodup.of_cons hnd)).mpr (Or.inr h1))
    · have hpm : p.1 = m := of_decide_eq_true hb
      simp only [if_true]
      constructor
      · intro h
        rcases List.mem_cons.mp h with rfl | h'
        · exact Or.inr rfl
        · refine Or.inl ⟨List.mem_cons_of_mem _ h', ?_⟩
          intro hqm
          have : m ∈ rest.map Prod.fst := by
            rw [← hqm]
            exact List.mem_map.mpr ⟨q, h', rfl⟩
          rw [List.map_cons, List.nodup_cons, hpm] at hnd
          exact hnd.1 this
      · intro h
        rcases h with ⟨h1, h2⟩ | h1
        · rcases List.mem_cons.mp h1 with rfl | h'
          · exact absurd hpm h2
          · exact List.mem_cons_of_mem _ h'
        · rw [h1]
          exact List.mem_cons_self _ _

theorem map_fst_dirWrite_of_mem (d : Dir) (m : String) (x : FileData)
    (h : m ∈ d.map Prod.fst) :
    (dirWrite d m x).map Prod.fst = d.map Prod.fst := by
  induction d with
  | nil => exact absurd h (by simp)
  | cons p rest ih =>
    unfold dirWrite
    cases hb : (p.1 == m)
    · simp only [Bool.false_eq_true, if_false, List.map_cons]
      have : m ∈ rest.map Prod.fst := by
        rcases List.mem_map.mp h with ⟨q, hq, hq1⟩
        rcases List.mem_cons.mp hq with rfl | hq'
        · rw [hq1] at hb
          simp at hb
        · exact List.mem_map.mpr ⟨q, hq', hq1⟩
      rw [ih this]
    · have hpm : p.1 = m := of_decide_eq_true hb
      simp only [if_true, List.map_cons, hpm]

theorem map_fst_dirWrite_of_not_mem (d : Dir) (m : String) (x : FileData)
    (h : m ∉ d.map Prod.fst) :
    (dirWrite d m x).map Prod.fst = d.map Prod.fst ++ [m] := by
  induction d with
  | nil => simp [dirWrite]
  | cons p rest ih =>
    unfold dirWrite
    cases hb : (p.1 == m)
    · simp only [Bool.false_eq_true, if_false, List.map_cons]
      rw [ih (fun hc => h (List.mem_cons_of_mem _ hc))]
      rfl
    · have hpm : p.1 = m := of_decide_eq_true hb
      exfalso
      apply h
      rw [List.map_cons, ← hpm]
      exact List.mem_cons_self _ _

theorem nodup_dirWrite (d : Dir) (m : String) (x : FileData)
    (hnd : (d.map Prod.fst).Nodup) : ((dirWrite d m x).map Prod.fst).Nodup := by
  by_cases h : m ∈ d.map Prod.fst
  · rw [map_fst_dirWrite_of_mem d m x h]
    exact hnd
  · rw [map_fst_dirWrite_of_not_mem d m x h]
    simp only [List.nodup_append, List.nodup_singleton]
    exact ⟨hnd, trivial, by simpa using h⟩

theorem dirLookup_dirWrite_self (d : Dir) (m : String) (x : FileData) :
    dirLookup (dirWrite d m x) m = some x := by
  induction d with
  | nil => simp [dirWrite, dirLookup, List.find?]
  | cons p rest ih =>
    unfold dirWrite
    cases hb : (p.1 == m)
    · simp only [Bool.false_eq_true, if_false]
      unfold dirLookup
      rw [List.find?, hb]
      exact ih
    · simp only [if_true]
      unfold dirLookup
      rw [List.find?, beq_self_eq_true]

theorem dirLookup_dirWrite_ne (d : Dir) (m : String) (x : FileData) (n : String)
    (h : n ≠ m) : dirLookup (dirWrite d m x) n = dirLookup d n := by
  induction d with
  | nil =>
    simp only [dirWrite, dirLookup, List.find?]
    have : (m == n) = false := by
      cases hb : (m == n)
      · rfl
      · exact absurd (of_decide_eq_true hb).symm h
    rw [this]
  | cons p rest ih =>
    unfold dirWrite
    cases hb : (p.1 == m)
    · simp only [Bool.false_eq_true, if_false]
      unfold dirLookup
      rw [List.find?, List.find?]
      cases hb2 : (p.1 == n)
      · exact ih
      · rfl
    · have hpm : p.1 = m := of_decide_eq_true hb
      simp only [if_true]
      unfold dirLookup
      rw [List.find?, List.find?]
      have h1 : (m == n) = false := by
        cases hb2 : (m == n)
        · rfl
        · exact absurd (of_decide_eq_true hb2).symm h
      have h2 : (p.1 == n) = false := by
        rw [hpm]
        exact h1
      rw [h1, h2]

/-! ### Listing lemmas -/

theorem listingEntries_eq_filter (g : GameEntry) (side : Side) (d : Dir) :
    listingEntries g side d = d.filter (fun p => keeps g side p.1) := rfl

theorem mem_listingEntries (g : GameEntry) (side : Side) (d : Dir)
    (p : String × FileData) :
    p ∈ listingEntries g side d ↔ p ∈ d ∧ keeps g side p.1 = true := by
  rw [listingEntries_eq_filter]
  exact List.mem_filter

theorem mem_getFileList (g : GameEntry) (side : Side) (d : Dir) (n : String) :
    n ∈ getFileList g side d ↔ ∃ f, (n, f) ∈ d ∧ keeps g side n = true := by
  unfold getFileList
  rw [List.mem_map]
  constructor
  · rintro ⟨p, hp, rfl⟩
    obtain ⟨h1, h2⟩ := (mem_listingEntries g side d p).mp hp
    exact ⟨p.2, by simpa using h1, h2⟩
  · rintro ⟨f, h1, h2⟩
    exact ⟨(n, f), (mem_listingEntries g side d (n, f)).mpr ⟨h1, h2⟩, rfl⟩

theorem names_of_mem_getFileList (g : GameEntry) (side : Side) (d : Dir) (n : String)
    (h : n ∈ getFileList g side d) : n ∈ d.map Prod.fst := by
  obtain ⟨f, h1, _⟩ := (mem_getFileList g side d n).mp h
  exact List.mem_map.mpr ⟨(n, f), h1, rfl⟩

theorem keeps_of_mem_getFileList (g : GameEntry) (side : Side) (d : Dir) (n : String)
    (h : n ∈ getFileList g side d) : keeps g side n = true :=
  ((mem_getFileList g side d n).mp h).choose_spec.2

theorem listing_of_lookup (g : GameEntry) (side : Side) (d : Dir) (n : String)
    (f : FileData) (hl : dirLookup d n = some f) (hk : keeps g side n = true) :
    (n, f) ∈ listingEntries g side d :=
  (mem_listingEntries g side d (n, f)).mpr ⟨mem_of_dirLookup d n f hl, hk⟩

theorem lookup_of_listing (g : GameEntry) (side : Side) (d : Dir)
    (hnd : (d.map Prod.fst).Nodup) (p : String × FileData)
    (hp : p ∈ listingEntries g side d) :
    dirLookup d p.1 = some p.2 ∧ keeps g side p.1 = true := by
  obtain ⟨h1, h2⟩ := (mem_listingEntries g side d p).mp hp
  exact ⟨by cases p; exact dirLookup_of_mem _ _ _ hnd h1, h2⟩

theorem mem_getFileList_of_lookup (g : GameEntry) (side : Side) (d : Dir)
    (n : String) (f : FileData) (hl : dirLookup d n = some f)
    (hk : keeps g side n = true) : n ∈ getFileList g side d :=
  (mem_getFileList g side d n).mpr ⟨f, mem_of_dirLookup d n f hl, hk⟩

theorem nodup_getFileList (g : GameEntry) (side : Side) (d : Dir)
    (hnd : (d.map Prod.fst).Nodup) : (getFileList g side d).Nodup := by
  unfold getFileList
  rw [listingEntries_eq_filter]
  exact List.Nodup.sublist (List.Sublist.map Prod.fst (List.filter_sublist d)) hnd

/-! ### Small helpers for the idempotence proof -/

theorem savesAreSame_of_bytes_eq (a b : FileData) (h : a.bytes = b.bytes) :
    savesAreSame a b = true := by
  unfold savesAreSame
  rw [h]
  simp

theorem listing_dirWrite (g : GameEntry) (side : Side) (d : Dir) (m : String)
    (x : FileData) (hnd : (d.map Prod.fst).Nodup) (q : String × FileData) :
    q ∈ listingEntries g side (dirWrite d m x) ↔
      (q ∈ listingEntries g side d ∧ q.1 ≠ m) ∨ (q = (m, x) ∧ keeps g side m = true) := by
  rw [mem_listingEntries, mem_dirWrite d m x hnd, mem_listingEntries]
  constructor
  · rintro ⟨h1 | h1, h2⟩
    · exact Or.inl ⟨⟨h1.1, h2⟩, h1.2⟩
    · exact Or.inr ⟨h1, by rw [h1] at h2; exact h2⟩
  · rintro (⟨⟨h1, h2⟩, h3⟩ | ⟨h1, h2⟩)
    · exact ⟨Or.inl ⟨h1, h3⟩, h2⟩
    · exact ⟨Or.inr h1, by rw [h1]; exact h2⟩

/-- Two distinct steam-listed files of `S0` cannot share a valid identity. -/
theorem steam_ids_distinct (g : GameEntry) (S0 : Dir)
    (huS : UniqueValidIds g Side.steam S0)
    (n n' : String) (f0 f0' : FileData) (hne : n ≠ n')
    (hl : dirLookup S0 n = some f0) (hl' : dirLookup S0 n' = some f0')
    (hk : keeps g Side.steam n = true) (hk' : keeps g Side.steam n' = true)
    (hv : validId (g.saveNameCB n f0.bytes) = true) :
    g.saveNameCB n f0.bytes ≠ g.saveNameCB n' f0'.bytes := by
  intro h
  exact hne (huS (n, f0) (listing_of_lookup g Side.steam S0 n f0 hl hk)
    (n', f0') (listing_of_lookup g Side.steam S0 n' f0' hl' hk') hv h)

theorem validId_false_cases (s : String) (h : ¬ validId s = true) :
    s = "" ∨ s = ("__IGNORE__") := by
  unfold validId at h
  rcases hb : (s == "") with _ | _
  · rcases hb2 : (s == ("__IGNORE__")) with _ | _
    · rw [hb, hb2] at h
      simp at h
    · exact Or.inr (of_decide_eq_true hb2)
  · exact Or.inl (of_decide_eq_true hb)

theorem beq_eq_false_of_ne (a b : String) (h : a ≠ b) : (a == b) = false := by
  cases hb : (a == b)
  · rfl
  · exact absurd (of_decide_eq_true hb) h

/-- Extending the invariant over a step that leaves both directories and
the aborted flag unchanged (skip and event-only branches). -/
theorem pass1Inv_skip (g : GameEntry) (S0 D0 : Dir) (P : List String) (n : String)
    (st st' : SyncState)
    (hsteam : st'.steam = st.steam) (hdbox : st'.dbox = st.dbox)
    (hab : st'.aborted = false)
    (hnL : n ∈ getFileList g Side.steam S0)
    (inv : Pass1Inv g S0 D0 P st)
    (hgood : ∀ f, dirLookup st.steam n = some f → keeps g Side.steam n = true →
      validId (g.saveNameCB n f.bytes) = true →
      (∃ q ∈ listingEntries g Side.dropbox st.dbox,
        entryId g q = g.saveNameCB n f.bytes) ∧
      (∀ q ∈ listingEntries g Side.dropbox st.dbox,
        entryId g q = g.saveNameCB n f.bytes → noCopyPair g q (n, f) = true)) :
    Pass1Inv g S0 D0 (P ++ [n]) st' := by
  refine ⟨hab, ?_, by rw [hsteam]; exact inv.inv_sn, ?_, ?_, ?_, ?_, ?_, ?_, ?_, ?_, ?_⟩
  · intro m hm
    rcases List.mem_append.mp hm with h | h
    · exact inv.inv_pn m h
    · have : m = n := by simpa using h
      subst this
      exact hnL
  · intro m hm
    rw [hsteam]
    exact inv.inv_sfuture m (fun hc => hm (List.mem_append_left _ hc))
  · intro a f f0 h1 h2
    rw [hsteam] at h1
    exact inv.inv_sid a f f0 h1 h2
  · intro a ha
    rw [hdbox]
    exact inv.inv_dnold a ha
  · intro a ha
    rw [hdbox] at ha
    rcases inv.inv_dnnew a ha with h | h
    · exact Or.inl h
    · exact Or.inr (List.mem_append_left _ h)
  · rw [hdbox]
    exact inv.inv_dnodup
  · intro a f f0 h1 h2 h3
    rw [hdbox] at h2
    exact inv.inv_did a f f0 h1 h2 h3
  · have := inv.inv_duniq
    unfold UniqueValidIds at this ⊢
    rw [hdbox]
    exact this
  · have := inv.inv_cross
    unfold CrossCoherent at this ⊢
    rw [hdbox, hsteam]
    exact this
  · intro a ha f hf hk hv
    rw [hsteam] at hf
    rw [hdbox]
    rcases List.mem_append.mp ha with h | h
    · exact inv.inv_good a h f hf hk hv
    · have : a = n := by simpa using h
      subst this
      exact hgood f hf hk hv

/-- A file processed earlier in the first pass cannot carry the identity
of the file currently being processed. -/
theorem processed_id_ne (g : GameEntry) (S0 D0 : Dir) (P : List String) (n : String)
    (st : SyncState) (f0 : FileData)
    (huS : UniqueValidIds g Side.steam S0)
    (inv : Pass1Inv g S0 D0 P st) (hnp : n ∉ P)
    (hf0 : dirLookup S0 n = some f0) (hkn : keeps g Side.steam n = true)
    (hval : validId (g.saveNameCB n f0.bytes) = true) :
    ∀ n' ∈ P, ∀ f', dirLookup st.steam n' = some f' →
      keeps g Side.steam n' = true → validId (g.saveNameCB n' f'.bytes) = true →
      g.saveNameCB n' f'.bytes ≠ g.saveNameCB n f0.bytes := by
  intro n' hn' f' hl' hk' hv' heq
  have hne : n ≠ n' := fun h => hnp (h ▸ hn')
  have hn'S0 : n' ∈ S0.map Prod.fst := by
    rw [← inv.inv_sn]
    exact names_of_dirLookup _ _ _ hl'
  obtain ⟨f0', hf0'⟩ := dirLookup_of_mem_names S0 n' hn'S0
  have hids : g.saveNameCB n' f'.bytes = g.saveNameCB n' f0'.bytes :=
    inv.inv_sid n' f' f0' hl' hf0'
  have hv0' : validId (g.saveNameCB n' f0'.bytes) = true := by
    rw [← hids]
    exact hv'
  exact steam_ids_distinct g S0 huS n n' f0 f0' hne hf0 hf0' hkn hk' hval
    (heq.symm.trans hids)

/-- When the stale-list lookup finds nothing, no currently dropbox-listed
file carries the identity being looked up. -/
theorem no_dbox_holder_of_find_none (g : GameEntry) (S0 D0 : Dir) (P : List String)
    (n : String) (st : SyncState) (f0 : FileData)
    (huS : UniqueValidIds g Side.steam S0) (hsfx : SuffixUniform g)
    (inv : Pass1Inv g S0 D0 P st) (hnp : n ∉ P)
    (hf0 : dirLookup S0 n = some f0) (hfst : dirLookup st.steam n = some f0)
    (hkn : keeps g Side.steam n = true)
    (hval : validId (g.saveNameCB n f0.bytes) = true)
    (hfind : findFileFromBasename g (getFileList g Side.dropbox D0) st.dbox
      (g.saveNameCB n f0.bytes) = none) :
    ∀ q ∈ listingEntries g Side.dropbox st.dbox,
      entryId g q ≠ g.saveNameCB n f0.bytes := by
  intro q hq hqid
  obtain ⟨hqlook, hqkeep⟩ := lookup_of_listing g Side.dropbox st.dbox inv.inv_dnodup q hq
  have hqnames : q.1 ∈ st.dbox.map Prod.fst := names_of_dirLookup _ _ _ hqlook
  rcases inv.inv_dnnew q.1 hqnames with hD0 | hP
  · -- an original dropbox name: it is on the stale list, so the scan
    -- would have found it
    have hqdn : q.1 ∈ getFileList g Side.dropbox D0 := by
      obtain ⟨fD0, hfD0⟩ := dirLookup_of_mem_names D0 q.1 hD0
      exact mem_getFileList_of_lookup g Side.dropbox D0 q.1 fD0 hfD0 hqkeep
    obtain ⟨p, hp⟩ := findFile_complete g (getFileList g Side.dropbox D0) st.dbox
      (g.saveNameCB n f0.bytes) q.1 q.2 hqdn hqlook hqid
    rw [hfind] at hp
    exact Option.noConfusion hp
  · -- the name of an earlier processed steam file: cross-coherence forces
    -- that steam file to carry the same identity, contradicting uniqueness
    have hn'L := inv.inv_pn q.1 hP
    have hn'steam : q.1 ∈ st.steam.map Prod.fst := by
      rw [inv.inv_sn]
      exact names_of_mem_getFileList g Side.steam S0 q.1 hn'L
    obtain ⟨fs, hfs⟩ := dirLookup_of_mem_names st.steam q.1 hn'steam
    have hkq : keeps g Side.steam q.1 = true :=
      keeps_of_mem_getFileList g Side.steam S0 q.1 hn'L
    have hcrossid : entryId g (q.1, fs) = entryId g q := by
      have h1 : (q.1, fs) ∈ listingEntries g Side.steam st.steam :=
        listing_of_lookup g Side.steam st.steam q.1 fs hfs hkq
      have hq' : (q.1, q.2) ∈ listingEntries g Side.dropbox st.dbox := by
        cases q
        exact hq
      exact inv.inv_cross (q.1, fs) h1 (q.1, q.2) hq' rfl
  -- now (q.1, fs) is a processed steam file carrying the current identity
    have : g.saveNameCB q.1 fs.bytes = g.saveNameCB n f0.bytes := by
      have : entryId g (q.1, fs) = g.saveNameCB n f0.bytes := by
        rw [hcrossid]
        exact hqid
      exact this
    exact processed_id_ne g S0 D0 P n st f0 huS inv hnp hf0 hkn hval q.1 hP fs hfs hkq
      (by rw [this]; exact hval) this

theorem noCopyPair_of_same (g : GameEntry) (q p : String × FileData)
    (h : savesAreSame q.2 p.2 = true) : noCopyPair g q p = true := by
  unfold noCopyPair
  rw [h]
  rfl

theorem noCopyPair_of_conflict (g : GameEntry) (q p : String × FileData)
    (h : compareFileTimes g p.1 p.2 q.1 q.2 = some 0) : noCopyPair g q p = true := by
  unfold noCopyPair
  rw [h]
  simp

/-- Invariant preservation for the steam-newer branch: the matched dropbox
file is overwritten with the steam file's bytes. -/
theorem pass1Inv_overwrite_dbox (g : GameEntry) (S0 D0 : Dir) (P : List String)
    (n : String) (st st' : SyncState) (f0 : FileData) (m : String) (dd : FileData)
    (x : FileData)
    (huS : UniqueValidIds g Side.steam S0) (hidc : IdCoherent g)
    (inv : Pass1Inv g S0 D0 P st) (hnp : n ∉ P)
    (hnL : n ∈ getFileList g Side.steam S0)
    (hf0 : dirLookup S0 n = some f0) (hfst : dirLookup st.steam n = some f0)
    (hkn : keeps g Side.steam n = true)
    (hval : validId (g.saveNameCB n f0.bytes) = true)
    (hmdn : m ∈ getFileList g Side.dropbox D0)
    (hmdd : dirLookup st.dbox m = some dd)
    (hmid : g.saveNameCB m dd.bytes = g.saveNameCB n f0.bytes)
    (hxb : x.bytes = f0.bytes)
    (hsteam' : st'.steam = st.steam)
    (hdbox' : st'.dbox = dirWrite st.dbox m x)
    (hab' : st'.aborted = false) :
    Pass1Inv g S0 D0 (P ++ [n]) st' := by
  have hmnames : m ∈ st.dbox.map Prod.fst := names_of_dirLookup _ _ _ hmdd
  have hkmd : keeps g Side.dropbox m = true := keeps_of_mem_getFileList _ _ _ _ hmdn
  have hxid : g.saveNameCB m x.bytes = g.saveNameCB m dd.bytes := by
    rw [hxb]
    exact hidc m dd.bytes n f0.bytes (by rw [hmid]; exact hval) hmid
  have hXm : g.saveNameCB m x.bytes = g.saveNameCB n f0.bytes := hxid.trans hmid
  have hmdd_listing : (m, dd) ∈ listingEntries g Side.dropbox st.dbox :=
    listing_of_lookup g Side.dropbox st.dbox m dd hmdd hkmd
  have hnew_listing : (m, x) ∈ listingEntries g Side.dropbox (dirWrite st.dbox m x) :=
    (listing_dirWrite g Side.dropbox st.dbox m x inv.inv_dnodup (m, x)).mpr
      (Or.inr ⟨rfl, hkmd⟩)
  have hdist := processed_id_ne g S0 D0 P n st f0 huS inv hnp hf0 hkn hval
  refine ⟨hab', ?_, ?_, ?_, ?_, ?_, ?_, ?_, ?_, ?_, ?_, ?_⟩
  · intro a ha
    rcases List.mem_append.mp ha with h | h
    · exact inv.inv_pn a h
    · have : a = n := by simpa using h
      subst this
      exact hnL
  · rw [hsteam']
    exact inv.inv_sn
  · intro a ha
    rw [hsteam']
    exact inv.inv_sfuture a (fun hc => ha (List.mem_append_left _ hc))
  · intro a f fa h1 h2
    rw [hsteam'] at h1
    exact inv.inv_sid a f fa h1 h2
  · intro a ha
    rw [hdbox', map_fst_dirWrite_of_mem st.dbox m x hmnames]
    exact inv.inv_dnold a ha
  · intro a ha
    rw [hdbox', map_fst_dirWrite_of_mem st.dbox m x hmnames] at ha
    rcases inv.inv_dnnew a ha with h | h
    · exact Or.inl h
    · exact Or.inr (List.mem_append_left _ h)
  · rw [hdbox']
    exact nodup_dirWrite st.dbox m x inv.inv_dnodup
  · intro a f fa ha h1 h2
    rw [hdbox'] at h1
    by_cases ham : a = m
    · subst ham
      rw [dirLookup_dirWrite_self st.dbox a x] at h1
      cases h1
      have hold := inv.inv_did a dd fa ha hmdd h2
      rw [hxid]
      exact hold
    · rw [dirLookup_dirWrite_ne st.dbox m x a ham] at h1
      exact inv.inv_did a f fa ha h1 h2
  · intro p hp q hq hv heq
    rw [hdbox'] at hp hq
    rcases (listing_dirWrite g Side.dropbox st.dbox m x inv.inv_dnodup p).mp hp with
      ⟨hpo, hpne⟩ | ⟨hpeq, _⟩
    · rcases (listing_dirWrite g Side.dropbox st.dbox m x inv.inv_dnodup q).mp hq with
        ⟨hqo, hqne⟩ | ⟨hqeq, _⟩
      · exact inv.inv_duniq p hpo q hqo hv heq
      · have hqid : entryId g q = g.saveNameCB n f0.bytes := by
          rw [hqeq]
          exact hXm
        have : p.1 = m :=
          inv.inv_duniq p hpo (m, dd) hmdd_listing hv
            (by rw [heq, hqid]; exact hmid.symm)
        rw [this, hqeq]
    · rcases (listing_dirWrite g Side.dropbox st.dbox m x inv.inv_dnodup q).mp hq with
        ⟨hqo, hqne⟩ | ⟨hqeq, _⟩
      · have hpid : entryId g p = g.saveNameCB n f0.bytes := by
          rw [hpeq]
          exact hXm
        have : q.1 = m :=
          inv.inv_duniq q hqo (m, dd) hmdd_listing
            (by rw [← heq, hpid]; exact hval)
            (by rw [← heq, hpid]; exact hmid.symm)
        rw [this, hpeq]
      · rw [hpeq, hqeq]
  · intro p hp q hq hname
    rw [hsteam'] at hp
    rw [hdbox'] at hq
    rcases (listing_dirWrite g Side.dropbox st.dbox m x inv.inv_dnodup q).mp hq with
      ⟨hqo, hqne⟩ | ⟨hqeq, _⟩
    · exact inv.inv_cross p hp q hqo hname
    · have h1 : entryId g p = entryId g (m, dd) :=
        inv.inv_cross p hp (m, dd) hmdd_listing (by rw [hname, hqeq])
      rw [h1, hqeq]
      show g.saveNameCB m dd.bytes = g.saveNameCB m x.bytes
      exact hxid.symm
  · intro a ha f hf hk hv
    rw [hsteam'] at hf
    rw [hdbox']
    rcases List.mem_append.mp ha with hP | hn
    · obtain ⟨⟨q0, hq0, hq0id⟩, hall⟩ := inv.inv_good a hP f hf hk hv
      have hXne : g.saveNameCB a f.bytes ≠ g.saveNameCB n f0.bytes :=
        hdist a hP f hf hk hv
      constructor
      · have hq0ne : q0.1 ≠ m := by
          intro hq0m
          obtain ⟨hq0look, _⟩ := lookup_of_listing g Side.dropbox st.dbox
            inv.inv_dnodup q0 hq0
          rw [hq0m, hmdd] at hq0look
          have : q0.2 = dd := (Option.some.inj hq0look).symm
          apply hXne
          rw [← hq0id]
          unfold entryId
          rw [hq0m, this]
          exact hmid
        exact ⟨q0, (listing_dirWrite g Side.dropbox st.dbox m x inv.inv_dnodup q0).mpr
          (Or.inl ⟨hq0, hq0ne⟩), hq0id⟩
      · intro q hq hid
        rcases (listing_dirWrite g Side.dropbox st.dbox m x inv.inv_dnodup q).mp hq with
          ⟨hqo, hqne⟩ | ⟨hqeq, _⟩
        · exact hall q hqo hid
        · exfalso
          apply hXne
          rw [← hid, hqeq]
          exact hXm
    · have han : a = n := by simpa using hn
      subst han
      rw [hfst] at hf
      have hff0 : f0 = f := Option.some.inj hf
      subst hff0
      constructor
      · exact ⟨(m, x), hnew_listing, hXm⟩
      · intro q hq hid
        rcases (listing_dirWrite g Side.dropbox st.dbox m x inv.inv_dnodup q).mp hq with
          ⟨hqo, hqne⟩ | ⟨hqeq, _⟩
        · exfalso
          apply hqne
          exact inv.inv_duniq q hqo (m, dd) hmdd_listing
            (by rw [hid]; exact hval) (by rw [hid]; exact hmid.symm)
        · rw [hqeq]
          exact noCopyPair_of_same g (m, x) (a, f0)
            (savesAreSame_of_bytes_eq x f0 hxb)

/-- Invariant preservation for the dropbox-newer branch: the steam file is
overwritten with the matched dropbox file's bytes. -/
theorem pass1Inv_overwrite_steam (g : GameEntry) (S0 D0 : Dir) (P : List String)
    (n : String) (st st' : SyncState) (f0 : FileData) (m : String) (dd : FileData)
    (y : FileData)
    (hS0nd : (S0.map Prod.fst).Nodup)
    (huS : UniqueValidIds g Side.steam S0) (hidc : IdCoherent g)
    (inv : Pass1Inv g S0 D0 P st) (hnp : n ∉ P)
    (hnL : n ∈ getFileList g Side.steam S0)
    (hf0 : dirLookup S0 n = some f0) (hfst : dirLookup st.steam n = some f0)
    (hkn : keeps g Side.steam n = true)
    (hval : validId (g.saveNameCB n f0.bytes) = true)
    (hmdn : m ∈ getFileList g Side.dropbox D0)
    (hmdd : dirLookup st.dbox m = some dd)
    (hmid : g.saveNameCB m dd.bytes = g.saveNameCB n f0.bytes)
    (hyb : y.bytes = dd.bytes)
    (hsteam' : st'.steam = dirWrite st.steam n y)
    (hdbox' : st'.dbox = st.dbox)
    (hab' : st'.aborted = false) :
    Pass1Inv g S0 D0 (P ++ [n]) st' := by
  have hsnd : (st.steam.map Prod.fst).Nodup := by
    rw [inv.inv_sn]
    exact hS0nd
  have hnnames : n ∈ st.steam.map Prod.fst := names_of_dirLookup _ _ _ hfst
  have hkmd : keeps g Side.dropbox m = true := keeps_of_mem_getFileList _ _ _ _ hmdn
  have hyid : g.saveNameCB n y.bytes = g.saveNameCB n f0.bytes := by
    rw [hyb]
    exact hidc n f0.bytes m dd.bytes hval hmid.symm
  have hmdd_listing : (m, dd) ∈ listingEntries g Side.dropbox st.dbox :=
    listing_of_lookup g Side.dropbox st.dbox m dd hmdd hkmd
  have hf0_listing : (n, f0) ∈ listingEntries g Side.steam st.steam :=
    listing_of_lookup g Side.steam st.steam n f0 hfst hkn
  have hdist := processed_id_ne g S0 D0 P n st f0 huS inv hnp hf0 hkn hval
  refine ⟨hab', ?_, ?_, ?_, ?_, ?_, ?_, ?_, ?_, ?_, ?_, ?_⟩
  · intro a ha
    rcases List.mem_append.mp ha with h | h
    · exact inv.inv_pn a h
    · have : a = n := by simpa using h
      subst this
      exact hnL
  · rw [hsteam', map_fst_dirWrite_of_mem st.steam n y hnnames]
    exact inv.inv_sn
  · intro a ha
    have hane : a ≠ n := fun h => ha (h ▸ List.mem_append_right P (List.mem_singleton.mpr rfl))
    rw [hsteam', dirLookup_dirWrite_ne st.steam n y a hane]
    exact inv.inv_sfuture a (fun hc => ha (List.mem_append_left _ hc))
  · intro a f fa h1 h2
    rw [hsteam'] at h1
    by_cases han : a = n
    · subst han
      rw [dirLookup_dirWrite_self st.steam a y] at h1
      cases h1
      rw [hf0] at h2
      cases h2
      exact hyid
    · rw [dirLookup_dirWrite_ne st.steam n y a han] at h1
      exact inv.inv_sid a f fa h1 h2
  · intro a ha
    rw [hdbox']
    exact inv.inv_dnold a ha
  · intro a ha
    rw [hdbox'] at ha
    rcases inv.inv_dnnew a ha with h | h
    · exact Or.inl h
    · exact Or.inr (List.mem_append_left _ h)
  · rw [hdbox']
    exact inv.inv_dnodup
  · intro a f fa ha h1 h2
    rw [hdbox'] at h1
    exact inv.inv_did a f fa ha h1 h2
  · have := inv.inv_duniq
    unfold UniqueValidIds at this ⊢
    rw [hdbox']
    exact this
  · intro p hp q hq hname
    rw [hsteam'] at hp
    rw [hdbox'] at hq
    rcases (listing_dirWrite g Side.steam st.steam n y hsnd p).mp hp with
      ⟨hpo, hpne⟩ | ⟨hpeq, _⟩
    · exact inv.inv_cross p hpo q hq hname
    · have h1 : entryId g (n, f0) = entryId g q :=
        inv.inv_cross (n, f0) hf0_listing q hq (by rw [← hname, hpeq])
    -- the overwritten steam file keeps its identity
      rw [hpeq]
      show g.saveNameCB n y.bytes = entryId g q
      rw [hyid]
      exact h1
  · intro a ha f hf hk hv
    rw [hsteam'] at hf
    rw [hdbox']
    rcases List.mem_append.mp ha with hP | hn
    · have hane : a ≠ n := fun h => hnp (h ▸ hP)
      rw [dirLookup_dirWrite_ne st.steam n y a hane] at hf
      exact inv.inv_good a hP f hf hk hv
    · have han : a = n := by simpa using hn
      subst han
      rw [dirLookup_dirWrite_self st.steam a y] at hf
      have hfy : y = f := Option.some.inj hf
      subst hfy
      constructor
      · exact ⟨(m, dd), hmdd_listing, by
          show g.saveNameCB m dd.bytes = g.saveNameCB a y.bytes
          rw [hyid]
          exact hmid⟩
      · intro q hq hid
        have hqm : q.1 = m := inv.inv_duniq q hq (m, dd) hmdd_listing
          (by rw [hid, hyid]; exact hval)
          (by rw [hid, hyid]; exact hmid.symm)
        obtain ⟨hqlook, _⟩ := lookup_of_listing g Side.dropbox st.dbox
          inv.inv_dnodup q hq
        rw [hqm, hmdd] at hqlook
        have hq2 : q.2 = dd := (Option.some.inj hqlook).symm
        have hqpair : q = (m, dd) := by
          cases q
          simp_all
        rw [hqpair]
        exact noCopyPair_of_same g (m, dd) (a, y)
          (savesAreSame_of_bytes_eq dd y hyb.symm)

/-- Invariant preservation for the new-backup branch: the steam file's
bytes are copied into the dropbox directory under its own base name. -/
theorem pass1Inv_append_dbox (g : GameEntry) (S0 D0 : Dir) (P : List String)
    (n : String) (st st' : SyncState) (f0 : FileData) (x : FileData)
    (hS0nd : (S0.map Prod.fst).Nodup)
    (huS : UniqueValidIds g Side.steam S0) (hsfx : SuffixUniform g)
    (inv : Pass1Inv g S0 D0 P st) (hnp : n ∉ P)
    (hnL : n ∈ getFileList g Side.steam S0)
    (hf0 : dirLookup S0 n = some f0) (hfst : dirLookup st.steam n = some f0)
    (hkn : keeps g Side.steam n = true)
    (hval : validId (g.saveNameCB n f0.bytes) = true)
    (hfind : findFileFromBasename g (getFileList g Side.dropbox D0) st.dbox
      (g.saveNameCB n f0.bytes) = none)
    (hxb : x.bytes = f0.bytes)
    (hsteam' : st'.steam = st.steam)
    (hdbox' : st'.dbox = dirWrite st.dbox n x)
    (hab' : st'.aborted = false) :
    Pass1Inv g S0 D0 (P ++ [n]) st' := by
  have hsnd : (st.steam.map Prod.fst).Nodup := by
    rw [inv.inv_sn]
    exact hS0nd
  have hkd : keeps g Side.dropbox n = true := by
    unfold keeps at hkn ⊢
    rw [← hsfx n]
    exact hkn
  have hf0_listing : (n, f0) ∈ listingEntries g Side.steam st.steam :=
    listing_of_lookup g Side.steam st.steam n f0 hfst hkn
  have hnotdbox : n ∉ st.dbox.map Prod.fst := by
    intro hin
    rcases inv.inv_dnnew n hin with hD0 | hP
    · obtain ⟨dbf, hdbf⟩ := dirLookup_of_mem_names st.dbox n hin
      have hdb_listing : (n, dbf) ∈ listingEntries g Side.dropbox st.dbox :=
        listing_of_lookup g Side.dropbox st.dbox n dbf hdbf hkd
      have hdbid : entryId g (n, f0) = entryId g (n, dbf) :=
        inv.inv_cross (n, f0) hf0_listing (n, dbf) hdb_listing rfl
      obtain ⟨fD0, hfD0⟩ := dirLookup_of_mem_names D0 n hD0
      have hndn : n ∈ getFileList g Side.dropbox D0 :=
        mem_getFileList_of_lookup g Side.dropbox D0 n fD0 hfD0 hkd
      obtain ⟨p, hp⟩ := findFile_complete g (getFileList g Side.dropbox D0) st.dbox
        (g.saveNameCB n f0.bytes) n dbf hndn hdbf hdbid.symm
      rw [hfind] at hp
      exact Option.noConfusion hp
    · exact hnp hP
  have hnoold := no_dbox_holder_of_find_none g S0 D0 P n st f0 huS hsfx inv hnp
    hf0 hfst hkn hval hfind
  have hnames' : (dirWrite st.dbox n x).map Prod.fst = st.dbox.map Prod.fst ++ [n] :=
    map_fst_dirWrite_of_not_mem st.dbox n x hnotdbox
  have hnew_listing : (n, x) ∈ listingEntries g Side.dropbox (dirWrite st.dbox n x) :=
    (listing_dirWrite g Side.dropbox st.dbox n x inv.inv_dnodup (n, x)).mpr
      (Or.inr ⟨rfl, hkd⟩)
  have hXn : entryId g (n, x) = g.saveNameCB n f0.bytes := by
    show g.saveNameCB n x.bytes = g.saveNameCB n f0.bytes
    rw [hxb]
  have hdist := processed_id_ne g S0 D0 P n st f0 huS inv hnp hf0 hkn hval
  refine ⟨hab', ?_, ?_, ?_, ?_, ?_, ?_, ?_, ?_, ?_, ?_, ?_⟩
  · intro a ha
    rcases List.mem_append.mp ha with h | h
    · exact inv.inv_pn a h
    · have : a = n := by simpa using h
      subst this
      exact hnL
  · rw [hsteam']
    exact inv.inv_sn
  · intro a ha
    rw [hsteam']
    exact inv.inv_sfuture a (fun hc => ha (List.mem_append_left _ hc))
  · intro a f fa h1 h2
    rw [hsteam'] at h1
    exact inv.inv_sid a f fa h1 h2
  · intro a ha
    rw [hdbox', hnames']
    exact List.mem_append_left _ (inv.inv_dnold a ha)
  · intro a ha
    rw [hdbox', hnames'] at ha
    rcases List.mem_append.mp ha with h | h
    · rcases inv.inv_dnnew a h with h1 | h1
      · exact Or.inl h1
      · exact Or.inr (List.mem_append_left _ h1)
    · have : a = n := by simpa using h
      subst this
      exact Or.inr (List.mem_append_right P (List.mem_singleton.mpr rfl))
  · rw [hdbox']
    exact nodup_dirWrite st.dbox n x inv.inv_dnodup
  · intro a f fa ha h1 h2
    rw [hdbox'] at h1
    have hane : a ≠ n := by
      intro h
      subst h
      exact hnotdbox (inv.inv_dnold a ha)
    rw [dirLookup_dirWrite_ne st.dbox n x a hane] at h1
    exact inv.inv_did a f fa ha h1 h2
  · intro p hp q hq hv heq
    rw [hdbox'] at hp hq
    rcases (listing_dirWrite g Side.dropbox st.dbox n x inv.inv_dnodup p).mp hp with
      ⟨hpo, hpne⟩ | ⟨hpeq, _⟩
    · rcases (listing_dirWrite g Side.dropbox st.dbox n x inv.inv_dnodup q).mp hq with
        ⟨hqo, hqne⟩ | ⟨hqeq, _⟩
      · exact inv.inv_duniq p hpo q hqo hv heq
      · exfalso
        apply hnoold p hpo
        rw [heq, hqeq]
        exact hXn
    · rcases (listing_dirWrite g Side.dropbox st.dbox n x inv.inv_dnodup q).mp hq with
        ⟨hqo, hqne⟩ | ⟨hqeq, _⟩
      · exfalso
        apply hnoold q hqo
        rw [← heq, hpeq]
        exact hXn
      · rw [hpeq, hqeq]
  · intro p hp q hq hname
    rw [hsteam'] at hp
    rw [hdbox'] at hq
    rcases (listing_dirWrite g Side.dropbox st.dbox n x inv.inv_dnodup q).mp hq with
      ⟨hqo, hqne⟩ | ⟨hqeq, _⟩
    · exact inv.inv_cross p hp q hqo hname
    · obtain ⟨hplook, _⟩ := lookup_of_listing g Side.steam st.steam hsnd p hp
      rw [hqeq]
      have hpn : p.1 = n := by
        rw [hname, hqeq]
      rw [hpn, hfst] at hplook
      have hp2 : p.2 = f0 := (Option.some.inj hplook).symm
      show entryId g p = g.saveNameCB n x.bytes
      unfold entryId
      rw [hpn, hp2, hxb]
  · intro a ha f hf hk hv
    rw [hsteam'] at hf
    rw [hdbox']
    rcases List.mem_append.mp ha with hP | hn
    · obtain ⟨⟨q0, hq0, hq0id⟩, hall⟩ := inv.inv_good a hP f hf hk hv
      have hXne : g.saveNameCB a f.bytes ≠ g.saveNameCB n f0.bytes :=
        hdist a hP f hf hk hv
      constructor
      · have hq0ne : q0.1 ≠ n := by
          intro h
          apply hnotdbox
          rw [← h]
          exact List.mem_map.mpr ⟨q0, ((mem_listingEntries g Side.dropbox st.dbox q0).mp hq0).1, rfl⟩
        exact ⟨q0, (listing_dirWrite g Side.dropbox st.dbox n x inv.inv_dnodup q0).mpr
          (Or.inl ⟨hq0, hq0ne⟩), hq0id⟩
      · intro q hq hid
        rcases (listing_dirWrite g Side.dropbox st.dbox n x inv.inv_dnodup q).mp hq with
          ⟨hqo, hqne⟩ | ⟨hqeq, _⟩
        · exact hall q hqo hid
        · exfalso
          apply hXne
          rw [← hid, hqeq]
          exact hXn
    · have han : a = n := by simpa using hn
      subst han
      rw [hfst] at hf
      have hff0 : f0 = f := Option.some.inj hf
      subst hff0
      constructor
      · exact ⟨(a, x), hnew_listing, hXn⟩
      · intro q hq hid
        rcases (listing_dirWrite g Side.dropbox st.dbox a x inv.inv_dnodup q).mp hq with
          ⟨hqo, hqne⟩ | ⟨hqeq, _⟩
        · exact absurd hid (hnoold q hqo)
        · rw [hqeq]
          exact noCopyPair_of_same g (a, x) (a, f0)
            (savesAreSame_of_bytes_eq x f0 hxb)

theorem compareTimes_eq_none (t1 t2 : ℚ) (h : compareTimes t1 t2 = none) :
    t1 = 0 ∨ t2 = 0 := by
  unfold compareTimes at h
  by_cases hc : (t1 == 0 || t2 == 0) = true
  · rcases Bool.or_eq_true_iff.mp hc with h1 | h1
    · exact Or.inl (of_decide_eq_true h1)
    · exact Or.inr (of_decide_eq_true h1)
  · rw [Bool.not_eq_true] at hc
    rw [hc] at h
    simp only [Bool.false_eq_true, if_false] at h
    split at h <;> [exact Option.noConfusion h; skip]
    split at h <;> exact Option.noConfusion h

/-- One step of the first pass preserves the invariant. -/
theorem pass1Inv_step (g : GameEntry) (S0 D0 : Dir) (P : List String) (n : String)
    (st : SyncState)
    (hS0nd : (S0.map Prod.fst).Nodup)
    (huS : UniqueValidIds g Side.steam S0) (hsfx : SuffixUniform g)
    (hidc : IdCoherent g) (htime : TimesNonzero g)
    (hnL : n ∈ getFileList g Side.steam S0) (hnp : n ∉ P)
    (inv : Pass1Inv g S0 D0 P st) :
    Pass1Inv g S0 D0 (P ++ [n])
      (pass1Step g (getFileList g Side.dropbox D0) st n) := by
  have hkn : keeps g Side.steam n = true := keeps_of_mem_getFileList _ _ _ _ hnL
  have hnS0 : n ∈ S0.map Prod.fst := names_of_mem_getFileList _ _ _ _ hnL
  obtain ⟨f0, hf0⟩ := dirLookup_of_mem_names S0 n hnS0
  have hfst : dirLookup st.steam n = some f0 := by
    rw [inv.inv_sfuture n hnp]
    exact hf0
  have hgoodf0 : ∀ f : FileData, dirLookup st.steam n = some f → f = f0 := by
    intro f hf
    rw [hfst] at hf
    exact (Option.some.inj hf).symm
  by_cases hval : validId (g.saveNameCB n f0.bytes) = true
  · obtain ⟨hv1, hv2⟩ := validId_beq _ hval
    cases hfind : findFileFromBasename g (getFileList g Side.dropbox D0) st.dbox
      (g.saveNameCB n f0.bytes) with
    | none =>
      rw [pass1Step_notfound g _ st n f0 inv.inv_ab hfst hv1 hv2 hfind,
        doSyncSave_eval g st Side.steam n Side.dropbox n f0 hfst]
      exact pass1Inv_append_dbox g S0 D0 P n st _ f0 ⟨f0.bytes, st.clock⟩ hS0nd huS hsfx
        inv hnp hnL hf0 hfst hkn hval hfind rfl rfl rfl inv.inv_ab
    | some p =>
      obtain ⟨m, dd⟩ := p
      obtain ⟨hmdn, hmdd, hmid⟩ := findFile_sound g _ st.dbox _ (m, dd) hfind
      have hkmd : keeps g Side.dropbox m = true := keeps_of_mem_getFileList _ _ _ _ hmdn
      have hmdd_listing : (m, dd) ∈ listingEntries g Side.dropbox st.dbox :=
        listing_of_lookup g Side.dropbox st.dbox m dd hmdd hkmd
      rw [pass1Step_found g _ st n f0 m dd inv.inv_ab hfst hv1 hv2 hfind]
      by_cases hsame : savesAreSame dd f0 = true
      · rw [if_pos hsame]
        refine pass1Inv_skip g S0 D0 P n st st rfl rfl inv.inv_ab hnL inv ?_
        intro f hf hk hvf
        rw [hgoodf0 f hf]
        refine ⟨⟨(m, dd), hmdd_listing, hmid⟩, ?_⟩
        intro q hq hid
        have hqm : q.1 = m := inv.inv_duniq q hq (m, dd) hmdd_listing
          (by rw [hid]; exact hval) (by rw [hid]; exact hmid.symm)
        obtain ⟨hqlook, _⟩ := lookup_of_listing g Side.dropbox st.dbox
          inv.inv_dnodup q hq
        rw [hqm, hmdd] at hqlook
        have hqpair : q = (m, dd) := by
          cases q
          simp_all
        rw [hqpair]
        exact noCopyPair_of_same g (m, dd) (n, f0) hsame
      · have hsameF : savesAreSame dd f0 = false := by
          cases hx : savesAreSame dd f0
          · rfl
          · exact absurd hx hsame
        rw [hsameF]
        simp only [Bool.false_eq_true, if_false]
        rcases compareTimes_cases (g.saveTimeCB n f0) (g.saveTimeCB m dd) with
          hc | hc | hc | hc <;>
          rw [show compareFileTimes g n f0 m dd =
            compareTimes (g.saveTimeCB n f0) (g.saveTimeCB m dd) from rfl, hc]
        · exfalso
          rcases compareTimes_eq_none _ _ hc with h | h
          · exact htime n f0 h
          · exact htime m dd h
        · simp only [show ((0 : Int) == 0) = true from rfl, if_true]
          refine pass1Inv_skip g S0 D0 P n st _ rfl rfl inv.inv_ab hnL inv ?_
          intro f hf hk hvf
          rw [hgoodf0 f hf]
          refine ⟨⟨(m, dd), hmdd_listing, hmid⟩, ?_⟩
          intro q hq hid
          have hqm : q.1 = m := inv.inv_duniq q hq (m, dd) hmdd_listing
            (by rw [hid]; exact hval) (by rw [hid]; exact hmid.symm)
          obtain ⟨hqlook, _⟩ := lookup_of_listing g Side.dropbox st.dbox
            inv.inv_dnodup q hq
          rw [hqm, hmdd] at hqlook
          have hqpair : q = (m, dd) := by
            cases q
            simp_all
          rw [hqpair]
          exact noCopyPair_of_conflict g (m, dd) (n, f0) hc
        · simp only [show ((1 : Int) == 0) = false from rfl,
            show ((1 : Int) == 1) = true from rfl, Bool.false_eq_true, if_false, if_true]
          rw [doSyncSave_eval g st Side.steam n Side.dropbox m f0 hfst]
          exact pass1Inv_overwrite_dbox g S0 D0 P n st _ f0 m dd ⟨f0.bytes, st.clock⟩
            huS hidc inv hnp hnL hf0 hfst hkn hval hmdn hmdd hmid rfl rfl rfl inv.inv_ab
        · simp only [show ((-1 : Int) == 0) = false from rfl,
            show ((-1 : Int) == 1) = false from rfl,
            show ((-1 : Int) == -1) = true from rfl, Bool.false_eq_true, if_false, if_true]
          rw [doSyncSave_eval g st Side.dropbox m Side.steam n dd hmdd]
          exact pass1Inv_overwrite_steam g S0 D0 P n st _ f0 m dd ⟨dd.bytes, st.clock⟩
            hS0nd huS hidc inv hnp hnL hf0 hfst hkn hval hmdn hmdd hmid rfl rfl rfl
            inv.inv_ab
  · rcases validId_false_cases _ hval with hE | hI
    · rw [pass1Step_empty g _ st n f0 inv.inv_ab hfst hE]
      refine pass1Inv_skip g S0 D0 P n st _ rfl rfl inv.inv_ab hnL inv ?_
      intro f hf hk hvf
      rw [hgoodf0 f hf] at hvf
      exact absurd hvf hval
    · rw [pass1Step_ignore g _ st n f0 inv.inv_ab hfst hI]
      refine pass1Inv_skip g S0 D0 P n st st rfl rfl inv.inv_ab hnL inv ?_
      intro f hf hk hvf
      rw [hgoodf0 f hf] at hvf
      exact absurd hvf hval

/-- The first pass preserves the invariant along any suffix of the steam
listing. -/
theorem pass1Inv_run (g : GameEntry) (S0 D0 : Dir)
    (hS0nd : (S0.map Prod.fst).Nodup)
    (huS : UniqueValidIds g Side.steam S0) (hsfx : SuffixUniform g)
    (hidc : IdCoherent g) (htime : TimesNonzero g)
    (L' P : List String) (st : SyncState)
    (hLP : getFileList g Side.steam S0 = P ++ L')
    (inv : Pass1Inv g S0 D0 P st) :
    Pass1Inv g S0 D0 (P ++ L')
      (runPass1 g (getFileList g Side.dropbox D0) L' st) := by
  induction L' generalizing P st with
  | nil =>
    simp only [List.append_nil]
    exact inv
  | cons n rest ih =>
    have hnd : (getFileList g Side.steam S0).Nodup :=
      nodup_getFileList g Side.steam S0 hS0nd
    have hnL : n ∈ getFileList g Side.steam S0 := by
      rw [hLP]
      exact List.mem_append_right P (List.mem_cons_self n rest)
    have hnp : n ∉ P := by
      intro hc
      rw [hLP] at hnd
      exact (List.disjoint_of_nodup_append hnd) hc (List.mem_cons_self n rest)
    have hstep := pass1Inv_step g S0 D0 P n st hS0nd huS hsfx hidc htime hnL hnp inv
    have hLP' : getFileList g Side.steam S0 = (P ++ [n]) ++ rest := by
      rw [hLP, List.append_assoc]
      rfl
    have := ih (P ++ [n]) (pass1Step g (getFileList g Side.dropbox D0) st n) hLP' hstep
    rw [List.append_assoc] at this
    exact this

/-- The invariant holds at the start of the first pass. -/
theorem pass1Inv_init (g : GameEntry) (S0 D0 : Dir) (c : ℚ)
    (hD0nd : (D0.map Prod.fst).Nodup)
    (huD : UniqueValidIds g Side.dropbox D0)
    (hcross : CrossCoherent g S0 D0) :
    Pass1Inv g S0 D0 [] ⟨S0, D0, c, [], [], false⟩ := by
  refine ⟨rfl, ?_, rfl, ?_, ?_, ?_, ?_, hD0nd, ?_, huD, hcross, ?_⟩
  · intro m hm
    exact absurd hm (List.not_mem_nil m)
  · intro a _
    rfl
  · intro a f fa h1 h2
    rw [h1] at h2
    rw [Option.some.inj h2]
  · intro a ha
    exact ha
  · intro a ha
    exact Or.inl ha
  · intro a f fa _ h1 h2
    rw [h1] at h2
    rw [Option.some.inj h2]
  · intro a ha
    exact absurd ha (List.not_mem_nil a)

/-- Extending the second-pass invariant over a step that leaves the
directories unchanged. -/
theorem pass2Inv_skip (g : GameEntry) (S1 D1 : Dir) (P : List String) (n : String)
    (st st' : SyncState)
    (hsteam : st'.steam = st.steam) (hdbox : st'.dbox = st.dbox)
    (hab : st'.aborted = false)
    (inv : Pass2Inv g S1 D1 P st)
    (hmatch : ∀ f, dirLookup D1 n = some f → keeps g Side.dropbox n = true →
      validId (g.saveNameCB n f.bytes) = true →
      ∃ p ∈ listingEntries g Side.steam st.steam,
        entryId g p = g.saveNameCB n f.bytes) :
    Pass2Inv g S1 D1 (P ++ [n]) st' := by
  refine ⟨hab, by rw [hdbox]; exact inv.jnv_dbox, ?_, ?_, ?_, ?_, ?_, ?_, ?_⟩
  · intro a ha
    rw [hsteam]
    exact inv.jnv_sold a ha
  · intro a ha
    rw [hsteam]
    exact inv.jnv_sup a ha
  · intro a ha
    rw [hsteam] at ha
    rcases inv.jnv_snames a ha with h | h
    · exact Or.inl h
    · exact Or.inr (List.mem_append_left _ h)
  · intro a f ha hf
    rw [hsteam] at hf
    exact inv.jnv_snew a f ha hf
  · rw [hsteam]
    exact inv.jnv_snodup
  · have := inv.jnv_cross
    unfold CrossCoherent at this ⊢
    rw [hsteam]
    exact this
  · intro a ha f hf hk hv
    rw [hsteam]
    rcases List.mem_append.mp ha with h | h
    · exact inv.jnv_pmatch a h f hf hk hv
    · have : a = n := by simpa using h
      subst this
      exact hmatch f hf hk hv

/-- Invariant preservation for the restore branch of the second pass: the
dropbox file's bytes are copied into the steam directory under its own
base name. -/
theorem pass2Inv_append_steam (g : GameEntry) (S1 D1 : Dir) (P : List String)
    (n : String) (st st' : SyncState) (fd : FileData) (y : FileData)
    (hD1nd : (D1.map Prod.fst).Nodup) (hsfx : SuffixUniform g)
    (inv : Pass2Inv g S1 D1 P st) (hnp : n ∉ P)
    (hnL : n ∈ getFileList g Side.dropbox D1)
    (hfd : dirLookup D1 n = some fd) (hfdbox : dirLookup st.dbox n = some fd)
    (hkdn : keeps g Side.dropbox n = true) (hkn : keeps g Side.steam n = true)
    (hval : validId (g.saveNameCB n fd.bytes) = true)
    (hfind : findFileFromBasename g (getFileList g Side.steam S1) st.steam
      (g.saveNameCB n fd.bytes) = none)
    (hyb : y.bytes = fd.bytes)
    (hsteam' : st'.steam = dirWrite st.steam n y)
    (hdbox' : st'.dbox = st.dbox)
    (hab' : st'.aborted = false) :
    Pass2Inv g S1 D1 (P ++ [n]) st' := by
  have hfd_listing : (n, fd) ∈ listingEntries g Side.dropbox D1 :=
    listing_of_lookup g Side.dropbox D1 n fd hfd hkdn
  have hgoodfd : ∀ f : FileData, dirLookup D1 n = some f → f = fd := by
    intro f hf
    rw [hfd] at hf
    exact (Option.some.inj hf).symm
  have hnotsteam : n ∉ st.steam.map Prod.fst := by
    intro hin
    rcases inv.jnv_snames n hin with hS1 | hP
    · obtain ⟨fs, hfsS1⟩ := dirLookup_of_mem_names S1 n hS1
      have hfs : dirLookup st.steam n = some fs := by
        rw [inv.jnv_sold n hS1]
        exact hfsS1
      have hnsn : n ∈ getFileList g Side.steam S1 :=
        mem_getFileList_of_lookup g Side.steam S1 n fs hfsS1 hkn
      have hfsid : entryId g (n, fs) = entryId g (n, fd) :=
        inv.jnv_cross (n, fs)
          (listing_of_lookup g Side.steam st.steam n fs hfs hkn)
          (n, fd) hfd_listing rfl
      obtain ⟨p, hp⟩ := findFile_complete g (getFileList g Side.steam S1) st.steam
        (g.saveNameCB n fd.bytes) n fs hnsn hfs hfsid
      rw [hfind] at hp
      exact Option.noConfusion hp
    · exact hnp hP
  have hnames' : (dirWrite st.steam n y).map Prod.fst =
      st.steam.map Prod.fst ++ [n] :=
    map_fst_dirWrite_of_not_mem st.steam n y hnotsteam
  have hnew_listing : (n, y) ∈ listingEntries g Side.steam (dirWrite st.steam n y) :=
    (listing_dirWrite g Side.steam st.steam n y inv.jnv_snodup (n, y)).mpr
      (Or.inr ⟨rfl, hkn⟩)
  refine ⟨hab', by rw [hdbox']; exact inv.jnv_dbox, ?_, ?_, ?_, ?_, ?_, ?_, ?_⟩
  · intro a ha
    have hane : a ≠ n := by
      intro h
      subst h
      exact hnotsteam (inv.jnv_sup a ha)
    rw [hsteam', dirLookup_dirWrite_ne st.steam n y a hane]
    exact inv.jnv_sold a ha
  · intro a ha
    rw [hsteam', hnames']
    exact List.mem_append_left _ (inv.jnv_sup a ha)
  · intro a ha
    rw [hsteam', hnames'] at ha
    rcases List.mem_append.mp ha with h | h
    · rcases inv.jnv_snames a h with h1 | h1
      · exact Or.inl h1
      · exact Or.inr (List.mem_append_left _ h1)
    · have : a = n := by simpa using h
      subst this
      exact Or.inr (List.mem_append_right P (List.mem_singleton.mpr rfl))
  · intro a f ha hf
    rw [hsteam'] at hf
    by_cases han : a = n
    · subst han
      rw [dirLookup_dirWrite_self st.steam a y] at hf
      refine ⟨fd, hfd, ?_⟩
      rw [← Option.some.inj hf]
      exact hyb
    · rw [dirLookup_dirWrite_ne st.steam n y a han] at hf
      exact inv.jnv_snew a f ha hf
  · rw [hsteam']
    exact nodup_dirWrite st.steam n y inv.jnv_snodup
  · intro p hp q hq hname
    rw [hsteam'] at hp
    rcases (listing_dirWrite g Side.steam st.steam n y inv.jnv_snodup p).mp hp with
      ⟨hpo, hpne⟩ | ⟨hpeq, _⟩
    · exact inv.jnv_cross p hpo q hq hname
    · obtain ⟨hqlook, _⟩ := lookup_of_listing g Side.dropbox D1 hD1nd q hq
      have hqn : q.1 = n := by
        rw [← hname, hpeq]
      rw [hqn, hfd] at hqlook
      have hq2 : q.2 = fd := (Option.some.inj hqlook).symm
      rw [hpeq]
      show g.saveNameCB n y.bytes = entryId g q
      unfold entryId
      rw [hqn, hq2, hyb]
  · intro a ha f hf hk hvf
    rw [hsteam']
    rcases List.mem_append.mp ha with h | h
    · obtain ⟨p0, hp0, hp0id⟩ := inv.jnv_pmatch a h f hf hk hvf
      have hp0ne : p0.1 ≠ n := by
        intro hc
        apply hnotsteam
        rw [← hc]
        exact List.mem_map.mpr
          ⟨p0, ((mem_listingEntries g Side.steam st.steam p0).mp hp0).1, rfl⟩
      exact ⟨p0, (listing_dirWrite g Side.steam st.steam n y inv.jnv_snodup p0).mpr
        (Or.inl ⟨hp0, hp0ne⟩), hp0id⟩
    · have : a = n := by simpa using h
      subst this
      rw [hgoodfd f hf]
      refine ⟨(a, y), hnew_listing, ?_⟩
      show g.saveNameCB a y.bytes = g.saveNameCB a fd.bytes
      rw [hyb]

/-- One step of the second pass preserves the invariant. -/
theorem pass2Inv_step (g : GameEntry) (S1 D1 : Dir) (P : List String) (n : String)
    (st : SyncState)
    (hD1nd : (D1.map Prod.fst).Nodup) (hsfx : SuffixUniform g)
    (hnL : n ∈ getFileList g Side.dropbox D1) (hnp : n ∉ P)
    (inv : Pass2Inv g S1 D1 P st) :
    Pass2Inv g S1 D1 (P ++ [n])
      (pass2Step g (getFileList g Side.steam S1) st n) := by
  have hkdn : keeps g Side.dropbox n = true := keeps_of_mem_getFileList _ _ _ _ hnL
  have hkn : keeps g Side.steam n = true := by
    unfold keeps at hkdn ⊢
    rw [hsfx n]
    exact hkdn
  have hnD1 : n ∈ D1.map Prod.fst := names_of_mem_getFileList _ _ _ _ hnL
  obtain ⟨fd, hfd⟩ := dirLookup_of_mem_names D1 n hnD1
  have hfdbox : dirLookup st.dbox n = some fd := by
    rw [inv.jnv_dbox]
    exact hfd
  have hfd_listing : (n, fd) ∈ listingEntries g Side.dropbox D1 :=
    listing_of_lookup g Side.dropbox D1 n fd hfd hkdn
  have hgoodfd : ∀ f : FileData, dirLookup D1 n = some f → f = fd := by
    intro f hf
    rw [hfd] at hf
    exact (Option.some.inj hf).symm
  by_cases hval : validId (g.saveNameCB n fd.bytes) = true
  · obtain ⟨hv1, hv2⟩ := validId_beq _ hval
    cases hfind : findFileFromBasename g (getFileList g Side.steam S1) st.steam
      (g.saveNameCB n fd.bytes) with
    | some p =>
      rw [pass2Step_found g _ st n fd p inv.jnv_ab hfdbox hv1 hv2 hfind]
      refine pass2Inv_skip g S1 D1 P n st st rfl rfl inv.jnv_ab inv ?_
      intro f hf hk hvf
      rw [hgoodfd f hf]
      obtain ⟨hpsn, hplook, hpid⟩ := findFile_sound g _ st.steam _ p hfind
      have hkp : keeps g Side.steam p.1 = true :=
        keeps_of_mem_getFileList g Side.steam S1 p.1 hpsn
      exact ⟨p, listing_of_lookup g Side.steam st.steam p.1 p.2 hplook hkp, hpid⟩
    | none =>
      rw [pass2Step_notfound g _ st n fd inv.jnv_ab hfdbox hv1 hv2 hfind,
        doSyncSave_eval g st Side.dropbox n Side.steam n fd hfdbox]
      exact pass2Inv_append_steam g S1 D1 P n st _ fd ⟨fd.bytes, st.clock⟩ hD1nd hsfx
        inv hnp hnL hfd hfdbox hkdn hkn hval hfind rfl rfl rfl inv.jnv_ab
  · rcases validId_false_cases _ hval with hE | hI
    · rw [pass2Step_empty g _ st n fd inv.jnv_ab hfdbox hE]
      refine pass2Inv_skip g S1 D1 P n st _ rfl rfl inv.jnv_ab inv ?_
      intro f hf hk hvf
      rw [hgoodfd f hf] at hvf
      exact absurd hvf hval
    · rw [pass2Step_ignore g _ st n fd inv.jnv_ab hfdbox hI]
      refine pass2Inv_skip g S1 D1 P n st st rfl rfl inv.jnv_ab inv ?_
      intro f hf hk hvf
      rw [hgoodfd f hf] at hvf
      exact absurd hvf hval

/-- The second pass preserves the invariant along any suffix of the
dropbox listing. -/
theorem pass2Inv_run (g : GameEntry) (S1 D1 : Dir)
    (hD1nd : (D1.map Prod.fst).Nodup) (hsfx : SuffixUniform g)
    (L' P : List String) (st : SyncState)
    (hLP : getFileList g Side.dropbox D1 = P ++ L')
    (inv : Pass2Inv g S1 D1 P st) :
    Pass2Inv g S1 D1 (P ++ L')
      (runPass2 g (getFileList g Side.steam S1) L' st) := by
  induction L' generalizing P st with
  | nil =>
    simp only [List.append_nil]
    exact inv
  | cons n rest ih =>
    have hnd : (getFileList g Side.dropbox D1).Nodup :=
      nodup_getFileList g Side.dropbox D1 hD1nd
    have hnL : n ∈ getFileList g Side.dropbox D1 := by
      rw [hLP]
      exact List.mem_append_right P (List.mem_cons_self n rest)
    have hnp : n ∉ P := by
      intro hc
      rw [hLP] at hnd
      exact (List.disjoint_of_nodup_append hnd) hc (List.mem_cons_self n rest)
    have hstep := pass2Inv_step g S1 D1 P n st hD1nd hsfx hnL hnp inv
    have hLP' : getFileList g Side.dropbox D1 = (P ++ [n]) ++ rest := by
      rw [hLP, List.append_assoc]
      rfl
    have := ih (P ++ [n]) (pass2Step g (getFileList g Side.steam S1) st n) hLP' hstep
    rw [List.append_assoc] at this
    exact this

/-- The invariant holds at the start of the second pass. -/
theorem pass2Inv_init (g : GameEntry) (S1 D1 : Dir) (st : SyncState)
    (hsteam : st.steam = S1) (hdbox : st.dbox = D1) (hab : st.aborted = false)
    (hS1nd : (S1.map Prod.fst).Nodup)
    (hcross : CrossCoherent g S1 D1) :
    Pass2Inv g S1 D1 [] st := by
  refine ⟨hab, hdbox, ?_, ?_, ?_, ?_, ?_, ?_, ?_⟩
  · intro a _
    rw [hsteam]
  · intro a ha
    rw [hsteam]
    exact ha
  · intro a ha
    rw [hsteam] at ha
    exact Or.inl ha
  · intro a f ha hf
    rw [hsteam] at hf
    exact absurd (names_of_dirLookup S1 a f hf) ha
  · rw [hsteam]
    exact hS1nd
  · have := hcross
    unfold CrossCoherent at this ⊢
    rw [hsteam]
    exact this
  · intro a ha
    exact absurd ha (List.not_mem_nil a)

/-- After a full run of `syncEntry` (under the uniqueness and coherence
hypotheses), the two directories are reconciled, their name lists are
duplicate-free, and the run did not abort. -/
theorem syncEntry_establishes (g : GameEntry) (S0 D0 : Dir) (c : ℚ)
    (hS0nd : (S0.map Prod.fst).Nodup) (hD0nd : (D0.map Prod.fst).Nodup)
    (huS : UniqueValidIds g Side.steam S0) (huD : UniqueValidIds g Side.dropbox D0)
    (hcross : CrossCoherent g S0 D0) (hsfx : SuffixUniform g)
    (hidc : IdCoherent g) (htime : TimesNonzero g) :
    Synced g (syncEntry g S0 D0 c).steam (syncEntry g S0 D0 c).dbox ∧
    ((syncEntry g S0 D0 c).steam.map Prod.fst).Nodup ∧
    ((syncEntry g S0 D0 c).dbox.map Prod.fst).Nodup := by
  have inv1 : Pass1Inv g S0 D0 ([] ++ getFileList g Side.steam S0)
      (runPass1 g (getFileList g Side.dropbox D0) (getFileList g Side.steam S0)
        ⟨S0, D0, c, [], [], false⟩) :=
    pass1Inv_run g S0 D0 hS0nd huS hsfx hidc htime (getFileList g Side.steam S0) []
      ⟨S0, D0, c, [], [], false⟩ rfl (pass1Inv_init g S0 D0 c hD0nd huD hcross)
  rw [List.nil_append] at inv1
  set st1 : SyncState := runPass1 g (getFileList g Side.dropbox D0)
    (getFileList g Side.steam S0) ⟨S0, D0, c, [], [], false⟩ with hst1
  have hS1nd : (st1.steam.map Prod.fst).Nodup := by
    rw [inv1.inv_sn]
    exact hS0nd
  have hD1nd : (st1.dbox.map Prod.fst).Nodup := inv1.inv_dnodup
  have inv2 : Pass2Inv g st1.steam st1.dbox
      ([] ++ getFileList g Side.dropbox st1.dbox)
      (runPass2 g (getFileList g Side.steam st1.steam)
        (getFileList g Side.dropbox st1.dbox) st1) :=
    pass2Inv_run g st1.steam st1.dbox hD1nd hsfx
      (getFileList g Side.dropbox st1.dbox) [] st1 rfl
      (pass2Inv_init g st1.steam st1.dbox st1 rfl rfl inv1.inv_ab hS1nd inv1.inv_cross)
  rw [List.nil_append] at inv2
  have hsync : syncEntry g S0 D0 c =
      runPass2 g (getFileList g Side.steam st1.steam)
        (getFileList g Side.dropbox st1.dbox) st1 := rfl
  rw [hsync]
  set st2 : SyncState := runPass2 g (getFileList g Side.steam st1.steam)
    (getFileList g Side.dropbox st1.dbox) st1 with hst2
  have hst2d : st2.dbox = st1.dbox := inv2.jnv_dbox
  refine ⟨⟨?_, ?_⟩, inv2.jnv_snodup, by rw [hst2d]; exact hD1nd⟩
  · -- every steam-listed file has exactly no-copy dropbox holders
    intro p hp hv
    obtain ⟨hplook, hpkeep⟩ := lookup_of_listing g Side.steam st2.steam
      inv2.jnv_snodup p hp
    by_cases hS1 : p.1 ∈ st1.steam.map Prod.fst
    · -- a file already present after the first pass
      have hlook1 : dirLookup st1.steam p.1 = some p.2 := by
        rw [← inv2.jnv_sold p.1 hS1]
        exact hplook
      have hpL : p.1 ∈ getFileList g Side.steam S0 := by
        obtain ⟨f0, hf0⟩ := dirLookup_of_mem_names S0 p.1 (by
          rw [← inv1.inv_sn]
          exact hS1)
        exact mem_getFileList_of_lookup g Side.steam S0 p.1 f0 hf0 hpkeep
      obtain ⟨hex, hall⟩ := inv1.inv_good p.1 hpL p.2 hlook1 hpkeep hv
      rw [hst2d]
      constructor
      · obtain ⟨q, hq, hqid⟩ := hex
        exact ⟨q, hq, hqid⟩
      · intro q hq hqid
        have := hall q hq hqid
        cases p
        exact this
    · -- a file restored by the second pass: it is a byte copy of the
      -- dropbox file of the same name
      obtain ⟨dd, hddD1, hbytes⟩ := inv2.jnv_snew p.1 p.2 hS1 hplook
      have hkdd : keeps g Side.dropbox p.1 = true := by
        unfold keeps at hpkeep ⊢
        rw [← hsfx p.1]
        exact hpkeep
      have hq_listing : (p.1, dd) ∈ listingEntries g Side.dropbox st1.dbox :=
        listing_of_lookup g Side.dropbox st1.dbox p.1 dd hddD1 hkdd
      have hqid : entryId g (p.1, dd) = entryId g p := by
        show g.saveNameCB p.1 dd.bytes = entryId g p
        rw [← hbytes]
        rfl
      rw [hst2d]
      constructor
      · exact ⟨(p.1, dd), hq_listing, hqid⟩
      · intro q hq hqid'
        have hq1 : q.1 = p.1 := inv1.inv_duniq q hq (p.1, dd) hq_listing
          (by rw [hqid']; exact hv) (by rw [hqid', ← hqid])
        obtain ⟨hqlook, _⟩ := lookup_of_listing g Side.dropbox st1.dbox hD1nd q hq
        rw [hq1, hddD1] at hqlook
        have hq2 : q.2 = dd := (Option.some.inj hqlook).symm
        have hqpair : q = (p.1, dd) := by
          cases q
          simp_all
        rw [hqpair]
        exact noCopyPair_of_same g (p.1, dd) p
          (savesAreSame_of_bytes_eq dd p.2 hbytes.symm)
  · -- every dropbox-listed file has a steam-listed holder of its identity
    intro q hq hv
    rw [hst2d] at hq
    obtain ⟨hqlook, hqkeep⟩ := lookup_of_listing g Side.dropbox st1.dbox hD1nd q hq
    have hqdn : q.1 ∈ getFileList g Side.dropbox st1.dbox :=
      mem_getFileList_of_lookup g Side.dropbox st1.dbox q.1 q.2 hqlook hqkeep
    have := inv2.jnv_pmatch q.1 hqdn q.2 hqlook hqkeep hv
    obtain ⟨p, hp, hpid⟩ := this
    exact ⟨p, hp, by cases q; exact hpid⟩

/-- On reconciled directories the first pass changes neither directory,
performs no copy and does not abort. -/
theorem runPass1_synced (g : GameEntry) (S D : Dir)
    (hsnd : (S.map Prod.fst).Nodup) (hdnd : (D.map Prod.fst).Nodup)
    (hsyn : ∀ p ∈ listingEntries g Side.steam S, validId (entryId g p) = true →
      (∃ q ∈ listingEntries g Side.dropbox D, entryId g q = entryId g p) ∧
      (∀ q ∈ listingEntries g Side.dropbox D, entryId g q = entryId g p →
        noCopyPair g q p = true))
    (ns : List String) (hns : ∀ n ∈ ns, n ∈ getFileList g Side.steam S) :
    ∀ st : SyncState, st.steam = S → st.dbox = D → st.aborted = false →
      (runPass1 g (getFileList g Side.dropbox D) ns st).steam = S ∧
      (runPass1 g (getFileList g Side.dropbox D) ns st).dbox = D ∧
      (runPass1 g (getFileList g Side.dropbox D) ns st).copies = st.copies ∧
      (runPass1 g (getFileList g Side.dropbox D) ns st).aborted = false := by
  induction ns with
  | nil =>
    intro st h1 h2 h3
    exact ⟨h1, h2, rfl, h3⟩
  | cons n rest ih =>
    intro st h1 h2 h3
    have hrw : runPass1 g (getFileList g Side.dropbox D) (n :: rest) st =
        runPass1 g (getFileList g Side.dropbox D) rest
          (pass1Step g (getFileList g Side.dropbox D) st n) := rfl
    rw [hrw]
    have hnL : n ∈ getFileList g Side.steam S := hns n (List.mem_cons_self n rest)
    have hrest : ∀ a ∈ rest, a ∈ getFileList g Side.steam S :=
      fun a ha => hns a (List.mem_cons_of_mem n ha)
    obtain ⟨f, hfS, hkn⟩ := (mem_getFileList g Side.steam S n).mp hnL
    have hfSlook : dirLookup S n = some f := dirLookup_of_mem S n f hsnd hfS
    have hfst : dirLookup st.steam n = some f := by
      rw [h1]
      exact hfSlook
    have happly : ∀ st' : SyncState, st'.steam = S → st'.dbox = D →
        st'.aborted = false → st'.copies = st.copies →
        (runPass1 g (getFileList g Side.dropbox D) rest st').steam = S ∧
        (runPass1 g (getFileList g Side.dropbox D) rest st').dbox = D ∧
        (runPass1 g (getFileList g Side.dropbox D) rest st').copies = st.copies ∧
        (runPass1 g (getFileList g Side.dropbox D) rest st').aborted = false := by
      intro st' k1 k2 k3 k4
      obtain ⟨r1, r2, r3, r4⟩ := ih hrest st' k1 k2 k3
      exact ⟨r1, r2, by rw [r3, k4], r4⟩
    by_cases hval : validId (g.saveNameCB n f.bytes) = true
    · obtain ⟨hv1, hv2⟩ := validId_beq _ hval
      have hnf_listing : (n, f) ∈ listingEntries g Side.steam S :=
        listing_of_lookup g Side.steam S n f hfSlook hkn
      obtain ⟨⟨q, hq, hqid⟩, hall⟩ := hsyn (n, f) hnf_listing hval
      obtain ⟨hqlookD, hqkeep⟩ := lookup_of_listing g Side.dropbox D hdnd q hq
      have hqdn : q.1 ∈ getFileList g Side.dropbox D :=
        mem_getFileList_of_lookup g Side.dropbox D q.1 q.2 hqlookD hqkeep
      have hqlook : dirLookup st.dbox q.1 = some q.2 := by
        rw [h2]
        exact hqlookD
      obtain ⟨p', hfind⟩ := findFile_complete g (getFileList g Side.dropbox D)
        st.dbox (g.saveNameCB n f.bytes) q.1 q.2 hqdn hqlook hqid
      obtain ⟨m, dd⟩ := p'
      obtain ⟨hmdn, hmdd, hmid⟩ := findFile_sound g _ st.dbox _ (m, dd) hfind
      have hmddD : dirLookup D m = some dd := by
        rw [← h2]
        exact hmdd
      have hmd_listing : (m, dd) ∈ listingEntries g Side.dropbox D :=
        listing_of_lookup g Side.dropbox D m dd hmddD
          (keeps_of_mem_getFileList g Side.dropbox D m hmdn)
      have hnc : noCopyPair g (m, dd) (n, f) = true := hall (m, dd) hmd_listing hmid
      rw [pass1Step_found g _ st n f m dd h3 hfst hv1 hv2 hfind]
      by_cases hsame : savesAreSame dd f = true
      · rw [if_pos hsame]
        exact happly st h1 h2 h3 rfl
      · have hsameF : savesAreSame dd f = false := by
          cases hx : savesAreSame dd f
          · rfl
          · exact absurd hx hsame
        have hcmp : compareFileTimes g n f m dd = some 0 := by
          unfold noCopyPair at hnc
          rw [hsameF, Bool.false_or] at hnc
          exact eq_of_beq hnc
        rw [hsameF]
        simp only [Bool.false_eq_true, if_false]
        rw [hcmp]
        exact happly { st with events := st.events ++ [conflictEvent g] }
          h1 h2 h3 rfl
    · rcases validId_false_cases _ hval with hE | hI
      · rw [pass1Step_empty g _ st n f h3 hfst hE]
        exact happly { st with
          events := st.events ++ [extractFailEvent (joinPath g.steamPath n)] }
          h1 h2 h3 rfl
      · rw [pass1Step_ignore g _ st n f h3 hfst hI]
        exact happly st h1 h2 h3 rfl

/-- On reconciled directories the second pass changes neither directory,
performs no copy and does not abort. -/
theorem runPass2_synced (g : GameEntry) (S D : Dir)
    (hsnd : (S.map Prod.fst).Nodup) (hdnd : (D.map Prod.fst).Nodup)
    (hsyn : ∀ q ∈ listingEntries g Side.dropbox D, validId (entryId g q) = true →
      ∃ p ∈ listingEntries g Side.steam S, entryId g p = entryId g q)
    (ns : List String) (hns : ∀ n ∈ ns, n ∈ getFileList g Side.dropbox D) :
    ∀ st : SyncState, st.steam = S → st.dbox = D → st.aborted = false →
      (runPass2 g (getFileList g Side.steam S) ns st).steam = S ∧
      (runPass2 g (getFileList g Side.steam S) ns st).dbox = D ∧
      (runPass2 g (getFileList g Side.steam S) ns st).copies = st.copies ∧
      (runPass2 g (getFileList g Side.steam S) ns st).aborted = false := by
  induction ns with
  | nil =>
    intro st h1 h2 h3
    exact ⟨h1, h2, rfl, h3⟩
  | cons n rest ih =>
    intro st h1 h2 h3
    have hrw : runPass2 g (getFileList g Side.steam S) (n :: rest) st =
        runPass2 g (getFileList g Side.steam S) rest
          (pass2Step g (getFileList g Side.steam S) st n) := rfl
    rw [hrw]
    have hnL : n ∈ getFileList g Side.dropbox D := hns n (List.mem_cons_self n rest)
    have hrest : ∀ a ∈ rest, a ∈ getFileList g Side.dropbox D :=
      fun a ha => hns a (List.mem_cons_of_mem n ha)
    obtain ⟨f, hfD, hkn⟩ := (mem_getFileList g Side.dropbox D n).mp hnL
    have hfDlook : dirLookup D n = some f := dirLookup_of_mem D n f hdnd hfD
    have hfst : dirLookup st.dbox n = some f := by
      rw [h2]
      exact hfDlook
    have happly : ∀ st' : SyncState, st'.steam = S → st'.dbox = D →
        st'.aborted = false → st'.copies = st.copies →
        (runPass2 g (getFileList g Side.steam S) rest st').steam = S ∧
        (runPass2 g (getFileList g Side.steam S) rest st').dbox = D ∧
        (runPass2 g (getFileList g Side.steam S) rest st').copies = st.copies ∧
        (runPass2 g (getFileList g Side.steam S) rest st').aborted = false := by
      intro st' k1 k2 k3 k4
      obtain ⟨r1, r2, r3, r4⟩ := ih hrest st' k1 k2 k3
      exact ⟨r1, r2, by rw [r3, k4], r4⟩
    by_cases hval : validId (g.saveNameCB n f.bytes) = true
    · obtain ⟨hv1, hv2⟩ := validId_beq _ hval
      have hnf_listing : (n, f) ∈ listingEntries g Side.dropbox D :=
        listing_of_lookup g Side.dropbox D n f hfDlook hkn
      obtain ⟨p, hp, hpid⟩ := hsyn (n, f) hnf_listing hval
      obtain ⟨hplookS, hpkeep⟩ := lookup_of_listing g Side.steam S hsnd p hp
      have hpsn : p.1 ∈ getFileList g Side.steam S :=
        mem_getFileList_of_lookup g Side.steam S p.1 p.2 hplookS hpkeep
      have hplook : dirLookup st.steam p.1 = some p.2 := by
        rw [h1]
        exact hplookS
      obtain ⟨p', hfind⟩ := findFile_complete g (getFileList g Side.steam S)
        st.steam (g.saveNameCB n f.bytes) p.1 p.2 hpsn hplook hpid
      rw [pass2Step_found g _ st n f p' h3 hfst hv1 hv2 hfind]
      exact happly st h1 h2 h3 rfl
    · rcases validId_false_cases _ hval with hE | hI
      · rw [pass2Step_empty g _ st n f h3 hfst hE]
        exact happly { st with
          events := st.events ++ [extractFailEvent (joinPath g.dropboxPath n)] }
          h1 h2 h3 rfl
      · rw [pass2Step_ignore g _ st n f h3 hfst hI]
        exact happly st h1 h2 h3 rfl

/-- C5 [amended]: reconciliation is idempotent provided that, at the start,
each directory holds at most one file per valid identity, files sharing a
base name across the two directories share an identity, the identity
strategy is coherent, the suffix filter treats both directories alike, the
directory name lists are duplicate-free, and no save time is the error
value `0`.  Under these hypotheses a second `syncEntry` run performs zero
copy actions.  (Without the per-directory identity-uniqueness hypothesis
the claim is false: see the counterexample.) -/
theorem c5_idempotent_amended (g : GameEntry) (S0 D0 : Dir) (c : ℚ)
    (hS0nd : (S0.map Prod.fst).Nodup) (hD0nd : (D0.map Prod.fst).Nodup)
    (huS : UniqueValidIds g Side.steam S0) (huD : UniqueValidIds g Side.dropbox D0)
    (hcross : CrossCoherent g S0 D0) (hsfx : SuffixUniform g)
    (hidc : IdCoherent g) (htime : TimesNonzero g) :
    (syncEntry g (syncEntry g S0 D0 c).steam (syncEntry g S0 D0 c).dbox
      (syncEntry g S0 D0 c).clock).copies = [] := by
  obtain ⟨⟨hsyn1, hsyn2⟩, hs2nd, hd2nd⟩ :=
    syncEntry_establishes g S0 D0 c hS0nd hD0nd huS huD hcross hsfx hidc htime
  have h1 := runPass1_synced g (syncEntry g S0 D0 c).steam (syncEntry g S0 D0 c).dbox
    hs2nd hd2nd hsyn1
    (getFileList g Side.steam (syncEntry g S0 D0 c).steam) (fun _ h => h)
    ⟨(syncEntry g S0 D0 c).steam, (syncEntry g S0 D0 c).dbox,
      (syncEntry g S0 D0 c).clock, [], [], false⟩ rfl rfl rfl
  have hdef : syncEntry g (syncEntry g S0 D0 c).steam (syncEntry g S0 D0 c).dbox
      (syncEntry g S0 D0 c).clock =
    runPass2 g
      (getFileList g Side.steam
        (runPass1 g (getFileList g Side.dropbox (syncEntry g S0 D0 c).dbox)
          (getFileList g Side.steam (syncEntry g S0 D0 c).steam)
          ⟨(syncEntry g S0 D0 c).steam, (syncEntry g S0 D0 c).dbox,
            (syncEntry g S0 D0 c).clock, [], [], false⟩).steam)
      (getFileList g Side.dropbox
        (runPass1 g (getFileList g Side.dropbox (syncEntry g S0 D0 c).dbox)
          (getFileList g Side.steam (syncEntry g S0 D0 c).steam)
          ⟨(syncEntry g S0 D0 c).steam, (syncEntry g S0 D0 c).dbox,
            (syncEntry g S0 D0 c).clock, [], [], false⟩).dbox)
      (runPass1 g (getFileList g Side.dropbox (syncEntry g S0 D0 c).dbox)
        (getFileList g Side.steam (syncEntry g S0 D0 c).steam)
        ⟨(syncEntry g S0 D0 c).steam, (syncEntry g S0 D0 c).dbox,
          (syncEntry g S0 D0 c).clock, [], [], false⟩) := rfl
  obtain ⟨k1, k2, k3, k4⟩ := h1
  rw [hdef, k1, k2]
  have h2 := runPass2_synced g (syncEntry g S0 D0 c).steam (syncEntry g S0 D0 c).dbox
    hs2nd hd2nd hsyn2
    (getFileList g Side.dropbox (syncEntry g S0 D0 c).dbox) (fun _ h => h)
    (runPass1 g (getFileList g Side.dropbox (syncEntry g S0 D0 c).dbox)
      (getFileList g Side.steam (syncEntry g S0 D0 c).steam)
      ⟨(syncEntry g S0 D0 c).steam, (syncEntry g S0 D0 c).dbox,
        (syncEntry g S0 D0 c).clock, [], [], false⟩) k1 k2 k4
  rw [h2.2.2.1, k3]

/-- C5 amended witness: on a one-file steam directory and an empty dropbox
directory (which satisfy all the hypotheses), the second run performs zero
copies. -/
theorem c5_witness :
    (syncEntry entryConstTime (syncEntry entryConstTime c5wSteam [] 0).steam
      (syncEntry entryConstTime c5wSteam [] 0).dbox
      (syncEntry entryConstTime c5wSteam [] 0).clock).copies = [] :=
  c5_idempotent_amended entryConstTime c5wSteam [] 0 (by decide) (by decide)
    (by unfold UniqueValidIds; decide) (by unfold UniqueValidIds; decide)
    (by unfold CrossCoherent; decide) (fun _ => rfl)
    (fun _ _ _ _ _ _ => rfl) (fun _ _ => by norm_num [entryConstTime])

end SteamSync
